import Mathlib

/-!
Verification development for the CODAR Time Series transcoder (`src/ts.c`).

The program is a bidirectional transcoder between a packed binary block
stream and a line-oriented text form.  We shallowly embed the block-stream
engine: the recursive length-delimited binary parser (`parse_block`), the
endian normalizer (`endian_fixup`/`swapcopy`), the per-block `fixup`,
`dump`, `make` and `gen` operations, the container-size reconciler
(`fixup_sizes`), and the binary serializer (`ts_write`).

Modelling conventions:
* Machine bytes are `Nat` values (< 256 for real data); buffers are `List Nat`.
* `uint32` fields are `Nat` with explicit `% 2^32` where C wraps.
* The host is little-endian (`Global_flag_little_endian = 1`), matching the
  platforms the program targets; `endian_fixup` keeps the flag as an explicit
  parameter so its contract can be stated for both hosts.
* C `double` arithmetic in the sample codec is modelled over `ℚ` (the ideal
  real-number semantics of the formulas in `read_alvl_samples` /
  `dump_block_alvl`); `int` truncation to `int16_t` is explicit.
* File I/O always succeeds in the model (`fwrite` failures are out of scope).
* Reading past the end of the allocated buffer (possible in `parse_block`
  when fewer than 8 bytes remain, C undefined behaviour) is modelled by the
  distinguished parse outcome `PResult.oob`.
-/

namespace TS

/-! ## Key constants (`#define KEY_...` in ts.c) -/

def KEY_AQLV : Nat := 0x4151564c
def KEY_HEAD : Nat := 0x48454144
def KEY_sign : Nat := 0x7369676e
def KEY_mcda : Nat := 0x6d636461
def KEY_cnst : Nat := 0x636e7374
def KEY_swep : Nat := 0x73776570
def KEY_fbin : Nat := 0x6662696e
def KEY_BODY : Nat := 0x424f4459
def KEY_gtag : Nat := 0x67746167
def KEY_atag : Nat := 0x61746167
def KEY_indx : Nat := 0x696e6478
def KEY_scal : Nat := 0x7363616c
def KEY_alvl : Nat := 0x616c766c
def KEY_END : Nat := 0x454e4420

def BINTYPE_FLT4 : Nat := 0x666c7434
def BINTYPE_FIX2 : Nat := 0x66697832
def BINTYPE_FIX3 : Nat := 0x66697833
def BINTYPE_FIX4 : Nat := 0x66697834

/-- The keys of `Global_function_dictionary` (order as in ts.c). -/
def dictKeys : List Nat :=
  [KEY_alvl, KEY_gtag, KEY_atag, KEY_indx, KEY_scal, KEY_sign, KEY_mcda,
   KEY_cnst, KEY_swep, KEY_fbin, KEY_AQLV, KEY_HEAD, KEY_BODY, KEY_END]

/-- `find_block_functions` succeeds iff the key is one of the 14 dictionary
keys (a zero key is rejected up front; 0 is not in the dictionary). -/
def findBlockKey (k : Nat) : Bool :=
  decide (k ≠ 0) && decide (k ∈ dictKeys)

/-- `superblock`: the four container tags. -/
def superkey (k : Nat) : Bool :=
  decide (k = KEY_AQLV) || decide (k = KEY_HEAD) || decide (k = KEY_BODY) ||
    decide (k = KEY_END)

/-! ## The node (`struct node`): key, payload size, payload bytes. -/

structure Node where
  key : Nat
  size : Nat
  data : List Nat
deriving DecidableEq, Repr

/-! ## Endian normalizer (`endian_fixup`, `swapcopy`)

`swapcopy` reverses the first `w` bytes for `w ∈ {2,4,8}` and — its `switch`
having no `default` arm — leaves the buffer untouched for any other width.
`endian_fixup` applies it only when the host is little-endian. -/

def swapcopy (w : Nat) (bs : List Nat) : List Nat :=
  if w = 2 ∨ w = 4 ∨ w = 8 then (bs.take w).reverse ++ bs.drop w else bs

def endian_fixup (littleEndian : Bool) (bs : List Nat) (w : Nat) : List Nat :=
  if littleEndian then swapcopy w bs else bs

/-! ## Byte/word helpers

On a little-endian host a `uint32` whose in-memory bytes have been
`endian_fixup`ed holds the big-endian (stream order) interpretation of the
original bytes, and writing a fixed-up `uint32` emits the big-endian bytes of
its pre-fixup value.  `be32` recomposes a stream-order (big-endian) 4-byte
group into the value `parse_block` stores in `node->key` / `node->size`;
`be32e` is the byte group `ts_write` emits for that value. -/

def be32 (bs : List Nat) : Nat :=
  match bs with
  | [b0, b1, b2, b3] => ((b0 * 256 + b1) * 256 + b2) * 256 + b3
  | _ => 0

def be32e (v : Nat) : List Nat :=
  [v / 2 ^ 24 % 256, v / 2 ^ 16 % 256, v / 2 ^ 8 % 256, v % 256]

/-- Value of a `uint32` whose little-endian in-memory bytes are `bs`. -/
def le32 (bs : List Nat) : Nat :=
  match bs with
  | [b0, b1, b2, b3] => ((b3 * 256 + b2) * 256 + b1) * 256 + b0
  | _ => 0

/-- Byte-swapped `uint32` value: the effect of `endian_fixup` on the value
held by a 4-byte scalar on a little-endian host. -/
def bswap32 (v : Nat) : Nat :=
  (v % 256) * 2 ^ 24 + (v / 2 ^ 8 % 256) * 2 ^ 16 + (v / 2 ^ 16 % 256) * 2 ^ 8 +
    v / 2 ^ 24 % 256

/-! ## Per-field byte swaps over a payload

A block's `fixup` function calls `endian_fixup` once per scalar field, in
layout order.  `swapChunks ws d` performs those in-place swaps (the whole
buffer survives); `swapTake ws d` is the byte stream a `gen` function emits
when it writes each field right after swapping it (only the fields are
written). -/

def swapChunks : List Nat → List Nat → List Nat
  | [], d => d
  | w :: ws, d => (d.take w).reverse ++ swapChunks ws (d.drop w)

def swapTake : List Nat → List Nat → List Nat
  | [], _ => []
  | w :: ws, d => (d.take w).reverse ++ swapTake ws (d.drop w)

/-- Scalar field widths of each fixed-layout block type (layout order). -/
def fieldWidths (k : Nat) : List Nat :=
  if k = KEY_sign then [4, 4, 4, 4]         -- version, filetype, sitecode, userflags
  else if k = KEY_mcda then [4]             -- timestamp
  else if k = KEY_cnst then [4, 4, 4, 4]    -- nchannels, nsweeps, nsamples, iqindicator
  else if k = KEY_swep then [4, 8, 8, 8, 4] -- samplespersweep, 3 doubles, rangeoffset
  else if k = KEY_fbin then [4, 4]          -- bin_format, bin_type
  else if k = KEY_gtag then [4]
  else if k = KEY_atag then [4]
  else if k = KEY_indx then [4]
  else if k = KEY_scal then [8, 8]          -- scalar_one, scalar_two
  else []

/-- Minimum payload size each leaf `fixup_data_*` checks (`sizeof(struct block_X)`). -/
def minSize (k : Nat) : Nat :=
  if k = KEY_sign then 208                  -- 4*4 + 64 + 64 + 64
  else if k = KEY_mcda then 4
  else if k = KEY_cnst then 16
  else if k = KEY_swep then 32
  else if k = KEY_fbin then 8
  else if k = KEY_gtag then 4
  else if k = KEY_atag then 4
  else if k = KEY_indx then 4
  else if k = KEY_scal then 16
  else if k = KEY_alvl then 4               -- sizeof(struct block_alvl): one I/Q pair
  else 0

/-- `fixup_data` on a little-endian host: dictionary lookup, minimum-size
check, then per-field in-place byte swaps on the payload.  `alvl` swaps the
two `int16` fields of each of `size/4` samples; the four container types'
fixups are no-ops.  `none` models the C error return 1. -/
def fixupData (k size : Nat) (d : List Nat) : Option (List Nat) :=
  if ¬ findBlockKey k then none
  else if superkey k then some d
  else if size < minSize k then none
  else if k = KEY_alvl then some (swapChunks (List.replicate (2 * (size / 4)) 2) d)
  else some (swapChunks (fieldWidths k) d)

/-! ## Binary decoder (`parse_file` / `parse_block`)

`parse_block` walks a byte range: it reads an 8-byte header, fixes up both
fields, clamps a declared size that exceeds the remaining range (printing a
warning, not an error), recurses into container payloads (splicing the
children flat, right after the container node) and runs `fixup_data` on leaf
payloads.  `buf` is the byte suffix of the whole file buffer from the current
position; `len` is the remaining length of the current range (sub-ranges sit
inside the larger buffer, so reads are taken from `buf`, not cut at `len`).
`len -= 8` is C `unsigned long` arithmetic and wraps below 8. -/

inductive PResult where
  | ok (ns : List Node)
  | err
  | oob
deriving DecidableEq, Repr

def PResult.mapOk (f : List Node → List Node) : PResult → PResult
  | .ok ns => .ok (f ns)
  | .err => .err
  | .oob => .oob

/-- `parse_block`.  The `fuel` parameter only makes the recursion structural:
each loop iteration consumes at least the 8 header bytes of `buf` and each
container recursion enters a strictly shorter suffix, so any fuel above
`buf.length` is sufficient and is never exhausted (`parseFile` supplies
`buf.length + 1`; running out of fuel is folded into the out-of-bounds
outcome, which those calls never reach). -/
def parseLoop (fuel : Nat) (buf : List Nat) (len : Nat) : PResult :=
  if len = 0 then .ok []
  else
    match fuel with
    | 0 => .oob
    | fuel + 1 =>
      if buf.length < 8 then .oob
      else
        let key := be32 (buf.take 4)
        let size0 := be32 ((buf.drop 4).take 4)
        let len' := if 8 ≤ len then len - 8 else len + (2 ^ 64 - 8)
        let size := if len' < size0 then len' else size0
        if size > buf.length - 8 then .oob
        else if superkey key then
          match parseLoop fuel (buf.drop 8) size with
          | .ok children =>
            (parseLoop fuel (buf.drop (8 + size)) (len' - size)).mapOk
              (fun rest => ⟨key, size, (buf.drop 8).take size⟩ :: children ++ rest)
          | r => r
        else
          match fixupData key size ((buf.drop 8).take size) with
          | some fixed =>
            (parseLoop fuel (buf.drop (8 + size)) (len' - size)).mapOk
              (fun rest => ⟨key, size, fixed⟩ :: rest)
          | none => .err

/-- `parse_file`: parse the whole buffer as one range. -/
def parseFile (buf : List Nat) : PResult :=
  parseLoop (buf.length + 1) buf buf.length

/-! ## Binary serializer (`ts_write` and the `gen_block_*` functions)

Each `gen_block_X` first `endian_fixup`s `node->key` and `node->size` in
place and writes the resulting 8 header bytes, then (for leaf blocks)
`endian_fixup`s each payload scalar field in place and writes it.  On a
little-endian host the bytes that reach the file are the big-endian encodings
of key and size, and per-field reversed payload bytes — and the node the
serializer leaves behind is mutated: its key and size values are
byte-swapped and its payload fields byte-reversed.

Exception (as in ts.c): `gen_block_sign` has its four `endian_fixup` calls
commented out, so the sign payload is written raw and left unmutated.
`gen_block_alvl` writes `size/4` I/Q samples (four bytes each), reading the
sample count from the size value saved before the header fixup. -/

/-- The payload bytes `gen_block_*` writes for a node with key `k`, declared
size `size` and payload `d` (little-endian host). -/
def genPayloadBytes (k size : Nat) (d : List Nat) : List Nat :=
  if superkey k then []
  else if k = KEY_sign then d.take 208
  else if k = KEY_alvl then swapTake (List.replicate (2 * (size / 4)) 2) d
  else swapTake (fieldWidths k) d

/-- The payload buffer left in memory after `gen_block_*`'s in-place
`endian_fixup` calls. -/
def genPayloadMut (k size : Nat) (d : List Nat) : List Nat :=
  if superkey k then d
  else if k = KEY_sign then d
  else if k = KEY_alvl then swapChunks (List.replicate (2 * (size / 4)) 2) d
  else swapChunks (fieldWidths k) d

/-- The node as `gen_block_*` leaves it in memory: key and size values
byte-swapped by the header fixups, payload scalar fields byte-reversed in
place (except for the sign block, whose payload fixups are commented out,
and the containers, which have no payload writes). -/
def mutateNode (n : Node) : Node :=
  ⟨bswap32 n.key, bswap32 n.size, genPayloadMut n.key n.size n.data⟩

/-- One `gen_block_*` call: emitted bytes and the mutated node. -/
def genBlock (n : Node) : List Nat × Node :=
  (be32e n.key ++ be32e n.size ++ genPayloadBytes n.key n.size n.data,
   mutateNode n)

/-- `ts_write list outfile`: serialize each node in order, stopping at the
first key with no dictionary entry.  Returns (bytes written so far, the list
as left in memory — nodes already serialized are mutated — and the error
flag). -/
def tsWrite : List Node → List Nat × List Node × Bool
  | [] => ([], [], false)
  | n :: rest =>
    if findBlockKey n.key then
      let (bytes, n') := genBlock n
      let (out, rest', err) := tsWrite rest
      (bytes ++ out, n' :: rest', err)
    else ([], n :: rest, true)

/-- Serialized bytes of a run of nodes, as `ts_write` emits them when every
key is found. -/
def serBytes : List Node → List Nat
  | [] => []
  | n :: rest => (genBlock n).1 ++ serBytes rest

/-- Well-formed leaf block: a non-container, non-sign dictionary key, the
declared size equal to the payload length and to the type's fixed layout
size (for `alvl`: any positive multiple of the 4-byte sample size). -/
def WFLeaf (n : Node) : Prop :=
  n.data.length = n.size ∧
  ((n.key = KEY_mcda ∧ n.size = 4) ∨ (n.key = KEY_cnst ∧ n.size = 16) ∨
   (n.key = KEY_swep ∧ n.size = 32) ∨ (n.key = KEY_fbin ∧ n.size = 8) ∨
   (n.key = KEY_gtag ∧ n.size = 4) ∨ (n.key = KEY_atag ∧ n.size = 4) ∨
   (n.key = KEY_indx ∧ n.size = 4) ∨ (n.key = KEY_scal ∧ n.size = 16) ∨
   (n.key = KEY_alvl ∧ 4 ≤ n.size ∧ n.size % 4 = 0))

instance (n : Node) : Decidable (WFLeaf n) := by
  unfold WFLeaf
  infer_instance

/-- Observation of a decoded sequence per the data model: container blocks
own no payload (the decoder's `data` pointer for a container merely marks
its span inside the input buffer and is never consumed by any operation). -/
def eraseSuper (l : List Node) : List Node :=
  l.map fun n => if superkey n.key then { n with data := [] } else n

/-! ## Size reconciler (`fixup_sizes`, `calculate_head_size`,
`calculate_body_size`, `set_block_size`)

`calculate_head_size` scans with an `in_head` flag: an `END` or `BODY` key
clears it, a block scanned while it is set contributes `size + 8`, and a
`HEAD` key sets it (after the accumulation check, so the `HEAD` block itself
is not counted).  `calculate_body_size` is the same with `BODY`/`END`.
The accumulator is a C `uint32_t`, hence the `% 2^32`.  `fixup_sizes`
treats a zero region total as failure and patches nothing more; its caller
`tsgen` ignores the returned error. -/

def headSizeLoop : List Node → Bool → Nat
  | [], _ => 0
  | n :: rest, inHead =>
    let inHead := if n.key = KEY_END then false else inHead
    let inHead := if n.key = KEY_BODY then false else inHead
    let add := if inHead then n.size + 8 else 0
    let inHead := if n.key = KEY_HEAD then true else inHead
    (add + headSizeLoop rest inHead) % 2 ^ 32

def calculate_head_size (l : List Node) : Nat := headSizeLoop l false

def bodySizeLoop : List Node → Bool → Nat
  | [], _ => 0
  | n :: rest, inBody =>
    let inBody := if n.key = KEY_END then false else inBody
    let add := if inBody then n.size + 8 else 0
    let inBody := if n.key = KEY_BODY then true else inBody
    (add + bodySizeLoop rest inBody) % 2 ^ 32

def calculate_body_size (l : List Node) : Nat := bodySizeLoop l false

/-- `set_block_size`: patch the size of the first node with the given key;
`none` when no such node exists (the `MissingContainer` case). -/
def set_block_size : List Node → Nat → Nat → Option (List Node)
  | [], _, _ => none
  | n :: rest, k, s =>
    if n.key = k then some ({ n with size := s } :: rest)
    else (set_block_size rest k s).map (n :: ·)

/-- `fixup_sizes`: returns the (possibly partially) patched list and the
error flag. -/
def fixup_sizes (l : List Node) : List Node × Bool :=
  let headSize := calculate_head_size l
  if headSize = 0 then (l, true)
  else
    let bodySize := calculate_body_size l
    if bodySize = 0 then (l, true)
    else
      let aqlvSize := (headSize + 8 + bodySize + 8) % 2 ^ 32
      match set_block_size l KEY_AQLV aqlvSize with
      | none => (l, true)
      | some l1 =>
        match set_block_size l1 KEY_HEAD headSize with
        | none => (l1, true)
        | some l2 =>
          match set_block_size l2 KEY_BODY bodySize with
          | none => (l2, true)
          | some l3 => (l3, false)

/-- The tail of `tsgen` after the text has been read: it calls
`fixup_sizes` DISCARDING the returned error flag, then hands whatever list
resulted to `ts_write`. -/
def tsgenFinish (l : List Node) : List Nat × List Node × Bool :=
  tsWrite (fixup_sizes l).1

/-- Region total as the spec states it: sum of (payload length + 8) over a
run of blocks. -/
def payloadSum (l : List Node) : Nat :=
  (l.map (fun n => n.data.length + 8)).sum

/-- Region total as the scan computes it: sum of (declared size + 8). -/
def sizeSum (l : List Node) : Nat :=
  (l.map (fun n => n.size + 8)).sum

/-- A block that is none of the four container markers. -/
def noContainer (n : Node) : Prop :=
  n.key ≠ KEY_AQLV ∧ n.key ≠ KEY_HEAD ∧ n.key ≠ KEY_BODY ∧ n.key ≠ KEY_END

instance (n : Node) : Decidable (noContainer n) := by
  unfold noContainer
  infer_instance

/-- The canonical bracket layout of a file: outer container, header
container and region, body container and region, end marker, with the
container sizes the reconciler would assign. -/
def canonSeq (hs bs : List Node) : List Node :=
  ⟨KEY_AQLV, sizeSum hs + 8 + sizeSum bs + 8, []⟩ ::
    (⟨KEY_HEAD, sizeSum hs, []⟩ :: (hs ++
    (⟨KEY_BODY, sizeSum bs, []⟩ :: (bs ++ [⟨KEY_END, 0, []⟩]))))

/-! ## The scaled sample codec (`read_alvl_samples`, `dump_block_alvl`)

`double` arithmetic is modelled over `ℚ`; C `round` (half away from zero)
is `roundAway`; storing an `int` into `int16_t` wraps modulo `2^16`
(gcc behaviour).  Note the C computes `i/scalar_one` with no zero check:
with the context's scale factors still at their `memset` default `0.0` the C
produces ±inf/NaN samples but NO error — `ℚ` division by zero yields 0 here,
and only the (faithful) control flow is used in theorems about that case. -/

/-- C `round()`: round to nearest, halves away from zero. -/
def roundAway (q : ℚ) : ℤ :=
  if 0 ≤ q then ⌊q + 1 / 2⌋ else -⌊-q + 1 / 2⌋

/-- Conversion of a C `int` value to `int16_t` (wrap modulo `2^16`). -/
def toInt16 (n : ℤ) : ℤ :=
  (n + 2 ^ 15) % 2 ^ 16 - 2 ^ 15

/-- The fixed-point full-scale factor chosen by the `switch` on
`config->bin_type` in both `read_alvl_samples` and `dump_block_alvl`;
`none` is the `default:` arm (unknown bin_type, error return 1). -/
def factorOf (binType : Nat) : Option ℚ :=
  if binType = BINTYPE_FLT4 then some 1
  else if binType = BINTYPE_FIX2 then some 0x7FFF
  else if binType = BINTYPE_FIX3 then some 0x7FFFFF
  else if binType = BINTYPE_FIX4 then some 0x7FFFFFFF
  else none

/-- Encoding of one physical sample value (`read_alvl_samples` body):
`i_scaled = (i/scalar)*factor`, `i_int = round(i_scaled)`, stored into the
`int16_t` sample field. -/
def encodeSample (v scalar factor : ℚ) : ℤ :=
  toInt16 (roundAway (v / scalar * factor))

/-- Decoding of one stored sample (`dump_block_alvl` body):
`scaled_i = (double)isample/factor*scalar`. -/
def decodeSample (s : ℤ) (scalar factor : ℚ) : ℚ :=
  (s : ℚ) / factor * scalar

/-- The build/dump context fields the sample codec consumes
(`config->bin_type`, `config->scalar_one`, `config->scalar_two`). -/
structure SampleCtx where
  bin_type : Nat
  scalar_one : ℚ
  scalar_two : ℚ

/-- `read_alvl_samples`: chooses the factor from the context's bin_type
(the `default:` arm is an error) and converts every I/Q pair; there is no
check whatsoever on `scalar_one`/`scalar_two`. -/
def read_alvl_samples (samples : List (ℚ × ℚ)) (cfg : SampleCtx) :
    Option (List (ℤ × ℤ)) :=
  match factorOf cfg.bin_type with
  | none => none
  | some f =>
    some (samples.map fun s =>
      (toInt16 (roundAway (s.1 / cfg.scalar_one * f)),
       toInt16 (roundAway (s.2 / cfg.scalar_two * f))))

/-! ## The mac-epoch timestamp block (`make_node_mcda`, `dump_block_mcda`) -/

/-- `make_node_mcda`: the text value is read with `%u` and the mac-epoch
offset added in `uint32_t` arithmetic before it is stored in the payload. -/
def make_node_mcda_stored (v : Nat) : Nat :=
  (v + 2082844800) % 2 ^ 32

/-- `dump_block_mcda`: the timestamp line's value, or `none` when the stored
value is zero (then no timestamp line is printed at all).  The subtraction
happens in `time_t` (64-bit signed) arithmetic, modelled exactly by `ℤ`
for stored values below `2^32`. -/
def dump_block_mcda_value (stored : Nat) : Option ℤ :=
  if stored = 0 then none else some ((stored : ℤ) - 2082844800)

/-! ## Text renderer (`dump_list` and the `dump_block_*` functions)

Output is modelled as a list of structured lines.  Values printed through
`strkey` appear as the four memory bytes in reversed (stream) order; values
printed with `%d`/`%u`/`%x` appear as the integer read from the node's
little-endian payload bytes; `double` fields (printed with `%.20lf`) are
carried as their raw 8 memory bytes — IEEE formatting is injective on them,
so equality of line lists models bit-for-bit equality of the text.  Each
sample line of an `alvl` block carries the exact ingredients of the printed
number: the `int16` sample value, the context's bin_type (which fixes the
factor) and the context's raw scale-factor bytes. -/

inductive Line where
  | tagLine (k : Nat)                               -- "%s\n", strkey(KEY)
  | fourccLine (name : String) (bytes : List Nat)   -- "name:%s\n", strkey(field)
  | natLine (name : String) (v : Nat)               -- %u / %x fields
  | intLine (name : String) (v : ℤ)                 -- %d fields and the mcda timestamp
  | rawLine (name : String) (bytes : List Nat)      -- fixed-width text / raw double fields
  | sampleLine (isI : Bool) (sample : ℤ) (binType : Nat) (scalarBytes : List Nat)
  | blankLine
deriving DecidableEq, Repr

/-- The renderer's threaded context: `config->bin_type` (a `uint32` value)
and the two scale factors as raw double bytes. -/
structure DumpCtx where
  bin_type : Nat
  scalar_one : List Nat
  scalar_two : List Nat
deriving DecidableEq, Repr

/-- Signed value of a 4-byte little-endian `int32` field. -/
def int32At (d : List Nat) (off : Nat) : ℤ :=
  (le32 ((d.drop off).take 4) + 2 ^ 31) % 2 ^ 32 - 2 ^ 31

/-- `int16` sample value from its 2 little-endian memory bytes. -/
def int16At (d : List Nat) (off : Nat) : ℤ :=
  toInt16 ((d.drop off).headI + 256 * (d.drop (off + 1)).headI)

/-- The per-sample lines of `dump_block_alvl`'s loop. -/
def alvlLines (d : List Nat) (cfg : DumpCtx) : Nat → List Line
  | 0 => []
  | k + 1 =>
    Line.sampleLine true (int16At d 0) cfg.bin_type cfg.scalar_one ::
    Line.sampleLine false (int16At d 2) cfg.bin_type cfg.scalar_two ::
    alvlLines (d.drop 4) cfg k

/-- One `dump_block_*` call: the lines it prints and the updated context,
or `none` for its error return (truncated block / unknown bin_type). -/
def dumpBlock (n : Node) (cfg : DumpCtx) : Option (List Line × DumpCtx) :=
  let d := n.data
  if n.key = KEY_AQLV then some ([.tagLine KEY_AQLV, .blankLine], cfg)
  else if n.key = KEY_HEAD then some ([.tagLine KEY_HEAD, .blankLine], cfg)
  else if n.key = KEY_BODY then some ([.tagLine KEY_BODY, .blankLine], cfg)
  else if n.key = KEY_END then some ([.tagLine KEY_END], cfg)
  else if n.key = KEY_sign then
    if n.size < 208 then none
    else some ([.tagLine KEY_sign,
      .fourccLine "version" (d.take 4).reverse,
      .fourccLine "filetype" ((d.drop 4).take 4).reverse,
      .fourccLine "sitecode" ((d.drop 8).take 4).reverse,
      .natLine "userflags" (le32 ((d.drop 12).take 4)),
      .rawLine "description" ((d.drop 16).take 64),
      .rawLine "ownername" ((d.drop 80).take 64),
      .rawLine "comment" ((d.drop 144).take 64),
      .blankLine], cfg)
  else if n.key = KEY_mcda then
    if n.size < 4 then none
    else some (.tagLine KEY_mcda ::
      (match dump_block_mcda_value (le32 (d.take 4)) with
       | some t => [.intLine "timestamp" t]
       | none => []) ++ [.blankLine], cfg)
  else if n.key = KEY_cnst then
    if n.size < 16 then none
    else some ([.tagLine KEY_cnst,
      .intLine "nchannels" (int32At d 0),
      .intLine "nsweeps" (int32At d 4),
      .intLine "nsamples" (int32At d 8),
      .intLine "iqindicator" (int32At d 12),
      .blankLine], cfg)
  else if n.key = KEY_swep then
    if n.size < 32 then none
    else some ([.tagLine KEY_swep,
      .intLine "samplespersweep" (int32At d 0),
      .rawLine "sweepstart" ((d.drop 4).take 8),
      .rawLine "sweepbandwidth" ((d.drop 12).take 8),
      .rawLine "sweeprate" ((d.drop 20).take 8),
      .intLine "rangeoffset" (int32At d 28),
      .blankLine], cfg)
  else if n.key = KEY_fbin then
    if n.size < 8 then none
    else some ([.tagLine KEY_fbin,
      .fourccLine "format" (d.take 4).reverse,
      .fourccLine "type" ((d.drop 4).take 4).reverse,
      .blankLine], { cfg with bin_type := le32 ((d.drop 4).take 4) })
  else if n.key = KEY_gtag then
    if n.size < 4 then none
    else some ([.tagLine KEY_gtag, .natLine "gtag" (le32 (d.take 4)), .blankLine], cfg)
  else if n.key = KEY_atag then
    if n.size < 4 then none
    else some ([.tagLine KEY_atag, .natLine "atag" (le32 (d.take 4)), .blankLine], cfg)
  else if n.key = KEY_indx then
    if n.size < 4 then none
    else some ([.tagLine KEY_indx, .natLine "index" (le32 (d.take 4)), .blankLine], cfg)
  else if n.key = KEY_scal then
    if n.size < 16 then none
    else some ([.tagLine KEY_scal,
      .rawLine "scalar_one" (d.take 8),
      .rawLine "scalar_two" ((d.drop 8).take 8),
      .blankLine],
      { cfg with scalar_one := d.take 8, scalar_two := (d.drop 8).take 8 })
  else if n.key = KEY_alvl then
    if n.size < 4 then none
    else match factorOf cfg.bin_type with
      | none => none        -- "Unknown bin_type" error in the factor switch
      | some _ =>
        some (.tagLine KEY_alvl :: alvlLines d cfg (n.size / 4) ++ [.blankLine], cfg)
  else none

/-- `dump_list`: walk the node list; for each node look up its dictionary
entry (unknown key: error), in header-only mode return success the moment
the block to dump is the `BODY` container (before printing it), otherwise
dump the block (threading the context) and continue.  Returns the lines
written before returning, and the error flag; on an error the lines of the
earlier blocks have already reached the file. -/
def dump_list (justHeader : Bool) (cfg : DumpCtx) : List Node → List Line × Bool
  | [] => ([], false)
  | n :: rest =>
    if findBlockKey n.key then
      if justHeader ∧ n.key = KEY_BODY then ([], false)
      else
        match dumpBlock n cfg with
        | none => ([], true)
        | some (lines, cfg') =>
          let (out, err) := dump_list justHeader cfg' rest
          (lines ++ out, err)
    else ([], true)

/-! # Helper lemmas -/

theorem be32_be32e (v : Nat) (h : v < 2 ^ 32) : be32 (be32e v) = v := by
  simp only [be32e, be32]
  omega

theorem be32e_length (v : Nat) : (be32e v).length = 4 := rfl

theorem roundAway_abs_sub_le (q : ℚ) : |(roundAway q : ℚ) - q| ≤ 1 / 2 := by
  unfold roundAway
  rcases le_or_lt 0 q with h | h
  · rw [if_pos h, abs_le]
    have h1 := Int.floor_le (q + 1 / 2)
    have h2 := Int.lt_floor_add_one (q + 1 / 2)
    constructor <;> push_cast at * <;> linarith
  · rw [if_neg (not_le.mpr h), abs_le]
    have h1 := Int.floor_le (-q + 1 / 2)
    have h2 := Int.lt_floor_add_one (-q + 1 / 2)
    constructor <;> push_cast at * <;> linarith

theorem roundAway_intCast (n : ℤ) : roundAway (n : ℚ) = n := by
  unfold roundAway
  rcases le_or_lt 0 (n : ℚ) with h | h
  · rw [if_pos h, Int.floor_int_add]
    norm_num
  · rw [if_neg (not_le.mpr h),
      show (-(n : ℚ) + 1 / 2) = ((-n : ℤ) : ℚ) + (1 / 2 : ℚ) by push_cast; ring,
      Int.floor_int_add]
    norm_num

theorem toInt16_eq_self (n : ℤ) (h : |n| ≤ 32767) : toInt16 n = n := by
  rw [abs_le] at h
  unfold toInt16
  omega

/-! ## Parser unfolding helpers -/

theorem parseLoop_zero (fuel : Nat) (buf : List Nat) : parseLoop fuel buf 0 = .ok [] := by
  rw [parseLoop.eq_def]
  rfl

/-- One iteration of the `parse_block` loop, with the fuel peeled and the
`len = 0` guard discharged. -/
theorem parseLoop_step (fuel : Nat) (buf : List Nat) (len : Nat)
    (hne : len ≠ 0) :
    parseLoop (fuel + 1) buf len =
      (if buf.length < 8 then .oob
       else
       let key := be32 (buf.take 4)
       let size0 := be32 ((buf.drop 4).take 4)
       let len' := if 8 ≤ len then len - 8 else len + (2 ^ 64 - 8)
       let size := if len' < size0 then len' else size0
       if size > buf.length - 8 then .oob
       else if superkey key then
         match parseLoop fuel (buf.drop 8) size with
         | .ok children =>
           (parseLoop fuel (buf.drop (8 + size)) (len' - size)).mapOk
             (fun rest => ⟨key, size, (buf.drop 8).take size⟩ :: children ++ rest)
         | r => r
       else
         match fixupData key size ((buf.drop 8).take size) with
         | some fixed =>
           (parseLoop fuel (buf.drop (8 + size)) (len' - size)).mapOk
             (fun rest => ⟨key, size, fixed⟩ :: rest)
         | none => .err) := by
  rw [parseLoop.eq_def, if_neg hne]

theorem mapOk_ok (f : List Node → List Node) (ns : List Node) :
    (PResult.ok ns).mapOk f = .ok (f ns) := rfl

/-! # Claim C1 — binary round trip: support lemmas

Per-field byte-swap algebra: a `gen` function writes `swapTake ws d` (the
fields, each reversed), a `fixup` rebuilds `swapChunks ws _` in place; when
the field widths exactly tile the payload the two compose to the identity. -/

theorem mapOk_mapOk (f g : List Node → List Node) (r : PResult) :
    (r.mapOk f).mapOk g = r.mapOk (fun x => g (f x)) := by
  cases r <;> rfl

theorem mapOk_id (r : PResult) : r.mapOk (fun x => x) = r := by
  cases r <;> rfl

theorem sizeSum_nil : sizeSum [] = 0 := rfl

theorem sizeSum_cons (n : Node) (l : List Node) :
    sizeSum (n :: l) = n.size + 8 + sizeSum l := by
  simp [sizeSum]

theorem sizeSum_append (l1 l2 : List Node) :
    sizeSum (l1 ++ l2) = sizeSum l1 + sizeSum l2 := by
  simp [sizeSum]

theorem length_le_sizeSum (l : List Node) : l.length ≤ sizeSum l := by
  induction l with
  | nil => simp [sizeSum]
  | cons n rest ih =>
    rw [sizeSum_cons]
    simp only [List.length_cons]
    omega

theorem size_lt_of_mem_sizeSum (l : List Node) (n : Node) (hn : n ∈ l) :
    n.size + 8 ≤ sizeSum l := by
  induction l with
  | nil => cases hn
  | cons m rest ih =>
    rw [sizeSum_cons]
    rcases List.mem_cons.mp hn with rfl | hmem
    · omega
    · have := ih hmem
      omega

theorem swapChunks_length (ws : List Nat) (d : List Nat) (h : ws.sum ≤ d.length) :
    (swapChunks ws d).length = d.length := by
  induction ws generalizing d with
  | nil => rfl
  | cons w ws ih =>
    simp only [List.sum_cons] at h
    simp only [swapChunks, List.length_append, List.length_reverse, List.length_take]
    rw [ih (d.drop w) (by simp only [List.length_drop]; omega)]
    simp only [List.length_drop]
    omega

theorem swapTake_eq_swapChunks (ws : List Nat) (d : List Nat) (h : ws.sum = d.length) :
    swapTake ws d = swapChunks ws d := by
  induction ws generalizing d with
  | nil =>
    simp only [List.sum_nil] at h
    rw [swapTake, swapChunks, List.eq_nil_of_length_eq_zero h.symm]
  | cons w ws ih =>
    simp only [List.sum_cons] at h
    simp only [swapTake, swapChunks]
    rw [ih (d.drop w) (by simp only [List.length_drop]; omega)]

theorem swapChunks_involutive (ws : List Nat) (d : List Nat) (h : ws.sum ≤ d.length) :
    swapChunks ws (swapChunks ws d) = d := by
  induction ws generalizing d with
  | nil => rfl
  | cons w ws ih =>
    simp only [List.sum_cons] at h
    simp only [swapChunks]
    rw [List.take_left' (by simp only [List.length_reverse, List.length_take]; omega),
      List.drop_left' (by simp only [List.length_reverse, List.length_take]; omega),
      List.reverse_reverse, ih (d.drop w) (by simp only [List.length_drop]; omega),
      List.take_append_drop]

theorem sum_replicate_two (m : Nat) : (List.replicate m 2).sum = 2 * m := by
  induction m with
  | zero => rfl
  | succ k ih =>
    rw [List.replicate_succ, List.sum_cons, ih]
    omega

theorem WFLeaf_key_facts (n : Node) (h : WFLeaf n) :
    n.key < 2 ^ 32 ∧ superkey n.key = false ∧ findBlockKey n.key = true ∧
      n.key ≠ KEY_sign ∧ n.key ≠ KEY_AQLV ∧ n.key ≠ KEY_HEAD ∧
      n.key ≠ KEY_BODY ∧ n.key ≠ KEY_END := by
  obtain ⟨-, hk⟩ := h
  rcases hk with ⟨hk, -⟩ | ⟨hk, -⟩ | ⟨hk, -⟩ | ⟨hk, -⟩ | ⟨hk, -⟩ | ⟨hk, -⟩ | ⟨hk, -⟩ |
    ⟨hk, -⟩ | ⟨hk, -, -⟩ <;> rw [hk] <;> exact (by decide)

/-- A `gen`/`fixup` inverse pair for a fixed-layout leaf: the emitted
payload has exactly the declared length and fixing it up restores the
original payload bytes. -/
theorem leaf_fixed_roundtrip (k : Nat) (d : List Nat)
    (hfind : findBlockKey k = true) (hsup : superkey k = false)
    (hsign : ¬ k = KEY_sign) (halvl : ¬ k = KEY_alvl)
    (hsum : (fieldWidths k).sum = d.length) (hmin : minSize k ≤ d.length) :
    (genPayloadBytes k d.length d).length = d.length ∧
    fixupData k d.length (genPayloadBytes k d.length d) = some d := by
  have hgen : genPayloadBytes k d.length d = swapTake (fieldWidths k) d := by
    unfold genPayloadBytes
    rw [if_neg (by simp [hsup]), if_neg hsign, if_neg halvl]
  have hst : swapTake (fieldWidths k) d = swapChunks (fieldWidths k) d :=
    swapTake_eq_swapChunks _ _ hsum
  have hlen2 : (swapChunks (fieldWidths k) d).length = d.length :=
    swapChunks_length _ _ (le_of_eq hsum)
  refine ⟨by rw [hgen, hst, hlen2], ?_⟩
  rw [hgen, hst]
  unfold fixupData
  rw [if_neg (by simp [hfind]), if_neg (by simp [hsup]),
    if_neg (show ¬ d.length < minSize k by omega), if_neg halvl,
    swapChunks_involutive _ _ (le_of_eq hsum)]

/-- The same inverse pair for the variable-length `alvl` block. -/
theorem leaf_alvl_roundtrip (d : List Nat)
    (hge : 4 ≤ d.length) (hmod : d.length % 4 = 0) :
    (genPayloadBytes KEY_alvl d.length d).length = d.length ∧
    fixupData KEY_alvl d.length (genPayloadBytes KEY_alvl d.length d) = some d := by
  have hsum : (List.replicate (2 * (d.length / 4)) 2).sum = d.length := by
    rw [sum_replicate_two]
    omega
  have hgen : genPayloadBytes KEY_alvl d.length d =
      swapTake (List.replicate (2 * (d.length / 4)) 2) d := by
    unfold genPayloadBytes
    rw [if_neg (by decide), if_neg (by decide), if_pos rfl]
  have hst := swapTake_eq_swapChunks _ _ hsum
  have hlen2 := swapChunks_length _ d (le_of_eq hsum)
  refine ⟨by rw [hgen, hst, hlen2], ?_⟩
  rw [hgen, hst]
  unfold fixupData
  rw [if_neg (by decide), if_neg (by decide),
    if_neg (show ¬ d.length < minSize KEY_alvl by
      rw [show minSize KEY_alvl = 4 from rfl]; omega),
    if_pos rfl]
  rw [swapChunks_involutive _ _ (le_of_eq hsum)]

theorem tsWrite_cons_found (n : Node) (rest : List Node)
    (hf : findBlockKey n.key = true) :
    tsWrite (n :: rest) =
      ((genBlock n).1 ++ (tsWrite rest).1, (genBlock n).2 :: (tsWrite rest).2.1,
        (tsWrite rest).2.2) := by
  simp [tsWrite, hf]

theorem tsWrite_cons_not_found (n : Node) (rest : List Node)
    (hf : findBlockKey n.key = false) :
    tsWrite (n :: rest) = ([], n :: rest, true) := by
  simp [tsWrite, hf]

/-- Any well-formed leaf's payload survives the serialize/parse fixup pair. -/
theorem genPayload_roundtrip (n : Node) (h : WFLeaf n) :
    (genPayloadBytes n.key n.size n.data).length = n.size ∧
    fixupData n.key n.size (genPayloadBytes n.key n.size n.data) = some n.data := by
  obtain ⟨hlen, hk⟩ := h
  rw [← hlen]
  rcases hk with ⟨hk, hsz⟩ | ⟨hk, hsz⟩ | ⟨hk, hsz⟩ | ⟨hk, hsz⟩ | ⟨hk, hsz⟩ | ⟨hk, hsz⟩ |
    ⟨hk, hsz⟩ | ⟨hk, hsz⟩ | ⟨hk, hge, hmod⟩
  case _ | _ | _ | _ | _ | _ | _ | _ =>
    rw [hk]
    exact leaf_fixed_roundtrip _ n.data (by decide) (by decide) (by decide) (by decide)
      (by rw [hlen, hsz]; decide) (by rw [hlen, hsz]; decide)
  case _ =>
    rw [hk]
    exact leaf_alvl_roundtrip n.data (by omega) (by omega)

theorem serBytes_append (l1 l2 : List Node) :
    serBytes (l1 ++ l2) = serBytes l1 ++ serBytes l2 := by
  induction l1 with
  | nil => rfl
  | cons n rest ih =>
    simp only [List.cons_append, serBytes, List.append_eq, ih, List.append_assoc]

theorem serBytes_length_leaves (ls : List Node) (hwf : ∀ n ∈ ls, WFLeaf n) :
    (serBytes ls).length = sizeSum ls := by
  induction ls with
  | nil => rfl
  | cons n rest ih =>
    have hn := hwf n (List.mem_cons_self n rest)
    have hrest : ∀ m ∈ rest, WFLeaf m := fun m hm => hwf m (List.mem_cons_of_mem n hm)
    have hpl := (genPayload_roundtrip n hn).1
    simp only [serBytes, genBlock, List.length_append, be32e_length, hpl,
      ih hrest, sizeSum_cons]
    omega

theorem tsWrite_all_found (l : List Node) (hf : ∀ n ∈ l, findBlockKey n.key = true) :
    tsWrite l = (serBytes l, l.map mutateNode, false) := by
  induction l with
  | nil => rfl
  | cons n rest ih =>
    have hn := hf n (List.mem_cons_self n rest)
    have hrest : ∀ m ∈ rest, findBlockKey m.key = true :=
      fun m hm => hf m (List.mem_cons_of_mem n hm)
    rw [tsWrite_cons_found n rest hn, ih hrest]
    rfl

/-- Parsing the serialized bytes of a run of well-formed leaves prepends
exactly those leaves and continues into the remaining bytes (one fuel unit
per block). -/
theorem parseLoop_leaves : ∀ (ls : List Node) (rest : List Nat) (fuel lenRest : Nat),
    (∀ n ∈ ls, WFLeaf n) → (∀ n ∈ ls, n.size < 2 ^ 32) →
    parseLoop (fuel + ls.length) (serBytes ls ++ rest) (sizeSum ls + lenRest) =
      (parseLoop fuel rest lenRest).mapOk (ls ++ ·) := by
  intro ls
  induction ls with
  | nil =>
    intro rest fuel lenRest _ _
    simp only [List.length_nil, Nat.add_zero, serBytes, List.nil_append, sizeSum_nil,
      Nat.zero_add]
    rw [mapOk_id]
  | cons n ls ih =>
    intro rest fuel lenRest hwf hszlt
    have hn := hwf n (List.mem_cons_self n ls)
    have hwls : ∀ m ∈ ls, WFLeaf m := fun m hm => hwf m (List.mem_cons_of_mem n hm)
    have hszls : ∀ m ∈ ls, m.size < 2 ^ 32 :=
      fun m hm => hszlt m (List.mem_cons_of_mem n hm)
    have hnsz : n.size < 2 ^ 32 := hszlt n (List.mem_cons_self n ls)
    obtain ⟨hklt, hsupf, -, -, -, -, -, -⟩ := WFLeaf_key_facts n hn
    obtain ⟨hpl, hfix⟩ := genPayload_roundtrip n hn
    have hserlen : (serBytes ls).length = sizeSum ls := serBytes_length_leaves ls hwls
    have hbuf : serBytes (n :: ls) ++ rest =
        be32e n.key ++ (be32e n.size ++ (genPayloadBytes n.key n.size n.data ++
          (serBytes ls ++ rest))) := by
      simp only [serBytes, genBlock, List.append_assoc]
    have hbl : (be32e n.key ++ (be32e n.size ++ (genPayloadBytes n.key n.size n.data ++
        (serBytes ls ++ rest)))).length = 8 + (n.size + (sizeSum ls + rest.length)) := by
      simp only [List.length_append, be32e_length, hpl, hserlen]
      omega
    have hdrop4 : (be32e n.key ++ (be32e n.size ++ (genPayloadBytes n.key n.size n.data ++
        (serBytes ls ++ rest)))).drop 4 =
        be32e n.size ++ (genPayloadBytes n.key n.size n.data ++ (serBytes ls ++ rest)) :=
      List.drop_left' (be32e_length n.key)
    have hdrop8 : (be32e n.key ++ (be32e n.size ++ (genPayloadBytes n.key n.size n.data ++
        (serBytes ls ++ rest)))).drop 8 =
        genPayloadBytes n.key n.size n.data ++ (serBytes ls ++ rest) := by
      rw [show (8 : Nat) = 4 + 4 from rfl, ← List.drop_drop, hdrop4,
        List.drop_left' (be32e_length n.size)]
    have hdropC : (be32e n.key ++ (be32e n.size ++ (genPayloadBytes n.key n.size n.data ++
        (serBytes ls ++ rest)))).drop (8 + n.size) = serBytes ls ++ rest := by
      rw [← List.drop_drop, hdrop8, List.drop_left' hpl]
    rw [hbuf, sizeSum_cons,
      show (n :: ls).length = ls.length + 1 from rfl,
      show fuel + (ls.length + 1) = (fuel + ls.length) + 1 from by omega,
      parseLoop_step _ _ _ (by omega),
      if_neg (show ¬ (be32e n.key ++ (be32e n.size ++ (genPayloadBytes n.key n.size n.data ++
        (serBytes ls ++ rest)))).length < 8 by rw [hbl]; omega)]
    simp only [List.take_left' (be32e_length n.key), hdrop4, hdrop8,
      List.take_left' (be32e_length n.size), be32_be32e n.key hklt,
      be32_be32e n.size hnsz]
    rw [if_pos (show (8 : Nat) ≤ n.size + 8 + sizeSum ls + lenRest by omega),
      show n.size + 8 + sizeSum ls + lenRest - 8 = n.size + (sizeSum ls + lenRest) from by
        omega,
      if_neg (show ¬ n.size + (sizeSum ls + lenRest) < n.size by omega)]
    rw [hbl]
    rw [if_neg (show ¬ n.size > 8 + (n.size + (sizeSum ls + rest.length)) - 8 by omega)]
    rw [hsupf]
    rw [if_neg (by simp)]
    rw [List.take_left' hpl, hfix, hdropC,
      show n.size + (sizeSum ls + lenRest) - n.size = sizeSum ls + lenRest from by omega,
      ih rest fuel lenRest hwls hszls]
    simp only []
    rw [mapOk_mapOk]
    rw [show (fun x : List Node => (⟨n.key, n.size, n.data⟩ : Node) :: (ls ++ x)) =
      (fun x : List Node => (n :: ls) ++ x) from funext fun x => by rw [List.cons_append]]

/-- Parsing one container block: the recursion consumes the span as the
container's children, splices them right after the container node (whose
`data` pointer marks the span), and continues after the span. -/
theorem parseLoop_super_step (fuel k sz lenRest : Nat) (span rest : List Nat)
    (children restNodes : List Node)
    (hk : k < 2 ^ 32) (hsz : sz < 2 ^ 32) (hsup : superkey k = true)
    (hspan : span.length = sz)
    (hchild : parseLoop fuel (span ++ rest) sz = .ok children)
    (hcont : parseLoop fuel rest lenRest = .ok restNodes) :
    parseLoop (fuel + 1) (be32e k ++ (be32e sz ++ (span ++ rest))) (8 + (sz + lenRest)) =
      .ok (⟨k, sz, span⟩ :: children ++ restNodes) := by
  have hbl : (be32e k ++ (be32e sz ++ (span ++ rest))).length =
      8 + (sz + rest.length) := by
    simp only [List.length_append, be32e_length, hspan]
    omega
  have hdrop4 : (be32e k ++ (be32e sz ++ (span ++ rest))).drop 4 =
      be32e sz ++ (span ++ rest) :=
    List.drop_left' (be32e_length k)
  have hdrop8 : (be32e k ++ (be32e sz ++ (span ++ rest))).drop 8 = span ++ rest := by
    rw [show (8 : Nat) = 4 + 4 from rfl, ← List.drop_drop, hdrop4,
      List.drop_left' (be32e_length sz)]
  have hdropC : (be32e k ++ (be32e sz ++ (span ++ rest))).drop (8 + sz) = rest := by
    rw [← List.drop_drop, hdrop8, List.drop_left' hspan]
  rw [parseLoop_step _ _ _ (by omega),
    if_neg (show ¬ (be32e k ++ (be32e sz ++ (span ++ rest))).length < 8 by
      rw [hbl]; omega)]
  simp only [List.take_left' (be32e_length k), hdrop4, hdrop8,
    List.take_left' (be32e_length sz), be32_be32e k hk, be32_be32e sz hsz]
  rw [if_pos (show (8 : Nat) ≤ 8 + (sz + lenRest) by omega),
    show 8 + (sz + lenRest) - 8 = sz + lenRest from by omega,
    if_neg (show ¬ sz + lenRest < sz by omega)]
  rw [hbl]
  rw [if_neg (show ¬ sz > 8 + (sz + rest.length) - 8 by omega)]
  rw [hsup]
  rw [if_pos rfl]
  rw [hchild]
  simp only []
  rw [List.take_left' hspan, hdropC,
    show sz + lenRest - sz = lenRest from by omega, hcont]
  rfl

theorem eraseSuper_nil : eraseSuper [] = [] := rfl

theorem eraseSuper_cons (n : Node) (l : List Node) :
    eraseSuper (n :: l) =
      (if superkey n.key then { n with data := [] } else n) :: eraseSuper l := rfl

theorem eraseSuper_append (l1 l2 : List Node) :
    eraseSuper (l1 ++ l2) = eraseSuper l1 ++ eraseSuper l2 := by
  simp [eraseSuper]

theorem eraseSuper_leaves (l : List Node) (h : ∀ n ∈ l, WFLeaf n) :
    eraseSuper l = l := by
  induction l with
  | nil => rfl
  | cons n rest ih =>
    have hsup := (WFLeaf_key_facts n (h n (List.mem_cons_self n rest))).2.1
    rw [eraseSuper_cons, ih fun m hm => h m (List.mem_cons_of_mem n hm)]
    simp [hsup]

/-- C1 (amended): serializing a canonically bracketed sequence of
well-formed non-sign leaf blocks succeeds, and decoding the produced bytes
yields a sequence with identical tags, lengths and payload bytes — up to
the container nodes' `data` field, which the decoder points at the
container's span in the input buffer and which no operation ever reads
(`eraseSuper` projects both sides to the data model's empty container
payload).  Signature blocks break the round trip: `gen_block_sign` writes
its payload raw while `fixup_data_sign` byte-swaps it. -/
theorem serialize_parse_roundtrip (hs bs : List Node)
    (hwf : ∀ n ∈ hs ++ bs, WFLeaf n)
    (hbound : sizeSum hs + sizeSum bs + 16 < 2 ^ 32) :
    (tsWrite (canonSeq hs bs)).2.2 = false ∧
    (parseFile (tsWrite (canonSeq hs bs)).1).mapOk eraseSuper =
      .ok (canonSeq hs bs) := by
  have hwfh : ∀ n ∈ hs, WFLeaf n := fun n hn => hwf n (List.mem_append_left _ hn)
  have hwfb : ∀ n ∈ bs, WFLeaf n := fun n hn => hwf n (List.mem_append_right _ hn)
  have hszh : ∀ n ∈ hs, n.size < 2 ^ 32 := fun n hn => by
    have := size_lt_of_mem_sizeSum hs n hn
    omega
  have hszb : ∀ n ∈ bs, n.size < 2 ^ 32 := fun n hn => by
    have := size_lt_of_mem_sizeSum bs n hn
    omega
  have hlenh : hs.length ≤ sizeSum hs := length_le_sizeSum hs
  have hlenb : bs.length ≤ sizeSum bs := length_le_sizeSum bs
  have hSHlen : (serBytes hs).length = sizeSum hs := serBytes_length_leaves hs hwfh
  have hSBlen : (serBytes bs).length = sizeSum bs := serBytes_length_leaves bs hwfb
  -- every key of the canonical sequence is in the dictionary
  have hfound : ∀ n ∈ canonSeq hs bs, findBlockKey n.key = true := by
    intro n hn
    unfold canonSeq at hn
    rcases List.mem_cons.mp hn with rfl | hn
    · exact (show findBlockKey KEY_AQLV = true by decide)
    rcases List.mem_cons.mp hn with rfl | hn
    · exact (show findBlockKey KEY_HEAD = true by decide)
    rcases List.mem_append.mp hn with hn | hn
    · exact (WFLeaf_key_facts n (hwfh n hn)).2.2.1
    rcases List.mem_cons.mp hn with rfl | hn
    · exact (show findBlockKey KEY_BODY = true by decide)
    rcases List.mem_append.mp hn with hn | hn
    · exact (WFLeaf_key_facts n (hwfb n hn)).2.2.1
    rcases List.mem_cons.mp hn with rfl | hn
    · exact (show findBlockKey KEY_END = true by decide)
    · cases hn
  have htw := tsWrite_all_found _ hfound
  refine ⟨by rw [htw], ?_⟩
  rw [htw]
  show (parseFile (serBytes (canonSeq hs bs))).mapOk eraseSuper =
    .ok (canonSeq hs bs)
  -- the payload a gen function writes for a container is empty
  have hpbA : ∀ s : Nat, genPayloadBytes KEY_AQLV s [] = [] := fun s => rfl
  have hpbH : ∀ s : Nat, genPayloadBytes KEY_HEAD s [] = [] := fun s => rfl
  have hpbB : ∀ s : Nat, genPayloadBytes KEY_BODY s [] = [] := fun s => rfl
  have hpbE : ∀ s : Nat, genPayloadBytes KEY_END s [] = [] := fun s => rfl
  -- the emitted bytes in parse-ready nested shape
  have hser : serBytes (canonSeq hs bs) =
      be32e KEY_AQLV ++ (be32e (sizeSum hs + 8 + sizeSum bs + 8) ++
        ((be32e KEY_HEAD ++ (be32e (sizeSum hs) ++ (serBytes hs ++
          (be32e KEY_BODY ++ (be32e (sizeSum bs) ++ serBytes bs))))) ++
         (be32e KEY_END ++ (be32e 0 ++
           (([] : List Nat) ++ ([] : List Nat)))))) := by
    simp only [canonSeq, serBytes, genBlock, serBytes_append, hpbA, hpbH, hpbB,
      hpbE, List.append_assoc, List.append_nil, List.nil_append]
  -- the end marker block parses to the END node alone
  have hE : ∀ f : Nat,
      parseLoop (f + 1)
        (be32e KEY_END ++ (be32e 0 ++ (([] : List Nat) ++ ([] : List Nat)))) 8 =
        .ok [⟨KEY_END, 0, []⟩] := by
    intro f
    have h := parseLoop_super_step f KEY_END 0 0 [] [] [] []
      (by decide) (by decide) (by decide) rfl
      (parseLoop_zero _ _) (parseLoop_zero _ _)
    simpa using h
  -- a run of well-formed leaves parses to exactly those leaves
  have hHleaves : ∀ f : Nat, hs.length ≤ f →
      parseLoop f (serBytes hs ++
        (be32e KEY_BODY ++ (be32e (sizeSum bs) ++ (serBytes bs ++
          (be32e KEY_END ++ (be32e 0 ++ (([] : List Nat) ++ ([] : List Nat))))))))
        (sizeSum hs) = .ok hs := by
    intro f hf
    rw [show f = (f - hs.length) + hs.length from by omega,
      show sizeSum hs = sizeSum hs + 0 from rfl,
      parseLoop_leaves hs _ (f - hs.length) 0 hwfh hszh,
      parseLoop_zero, mapOk_ok]
    simp
  have hBleaves : ∀ f : Nat, bs.length ≤ f →
      parseLoop f (serBytes bs ++
        (be32e KEY_END ++ (be32e 0 ++ (([] : List Nat) ++ ([] : List Nat)))))
        (sizeSum bs) = .ok bs := by
    intro f hf
    rw [show f = (f - bs.length) + bs.length from by omega,
      show sizeSum bs = sizeSum bs + 0 from rfl,
      parseLoop_leaves bs _ (f - bs.length) 0 hwfb hszb,
      parseLoop_zero, mapOk_ok]
    simp
  -- the body container with its region and the end marker
  have hB : ∀ f : Nat, bs.length ≤ f →
      parseLoop (f + 1)
        (be32e KEY_BODY ++ (be32e (sizeSum bs) ++ (serBytes bs ++
          (be32e KEY_END ++ (be32e 0 ++ (([] : List Nat) ++ ([] : List Nat)))))))
        (sizeSum bs + 8) =
        .ok (⟨KEY_BODY, sizeSum bs, serBytes bs⟩ :: bs ++ []) := by
    intro f hf
    rw [show sizeSum bs + 8 = 8 + (sizeSum bs + 0) from by omega]
    exact parseLoop_super_step f KEY_BODY (sizeSum bs) 0 (serBytes bs)
      (be32e KEY_END ++ (be32e 0 ++ (([] : List Nat) ++ ([] : List Nat))))
      bs [] (by decide) (by omega) (by decide) hSBlen
      (hBleaves f hf) (parseLoop_zero _ _)
  -- the header container with its region, then the body
  have hH : ∀ f : Nat, hs.length ≤ f → bs.length + 1 ≤ f →
      parseLoop (f + 1)
        ((be32e KEY_HEAD ++ (be32e (sizeSum hs) ++ (serBytes hs ++
          (be32e KEY_BODY ++ (be32e (sizeSum bs) ++ serBytes bs))))) ++
         (be32e KEY_END ++ (be32e 0 ++ (([] : List Nat) ++ ([] : List Nat)))))
        (sizeSum hs + 8 + sizeSum bs + 8) =
        .ok (⟨KEY_HEAD, sizeSum hs, serBytes hs⟩ :: hs ++
          (⟨KEY_BODY, sizeSum bs, serBytes bs⟩ :: bs ++ [])) := by
    intro f hf1 hf2
    have hshape : (be32e KEY_HEAD ++ (be32e (sizeSum hs) ++ (serBytes hs ++
        (be32e KEY_BODY ++ (be32e (sizeSum bs) ++ serBytes bs))))) ++
          (be32e KEY_END ++ (be32e 0 ++ (([] : List Nat) ++ ([] : List Nat)))) =
        be32e KEY_HEAD ++ (be32e (sizeSum hs) ++ ((serBytes hs) ++
          (be32e KEY_BODY ++ (be32e (sizeSum bs) ++ (serBytes bs ++
            (be32e KEY_END ++ (be32e 0 ++
              (([] : List Nat) ++ ([] : List Nat))))))))) := by
      simp [List.append_assoc]
    rw [hshape,
      show sizeSum hs + 8 + sizeSum bs + 8 = 8 + (sizeSum hs + (sizeSum bs + 8))
        from by omega]
    refine parseLoop_super_step f KEY_HEAD (sizeSum hs) (sizeSum bs + 8)
      (serBytes hs)
      (be32e KEY_BODY ++ (be32e (sizeSum bs) ++ (serBytes bs ++
        (be32e KEY_END ++ (be32e 0 ++ (([] : List Nat) ++ ([] : List Nat)))))))
      hs (⟨KEY_BODY, sizeSum bs, serBytes bs⟩ :: bs ++ [])
      (by decide) (by omega) (by decide) hSHlen (hHleaves f hf1) ?_
    obtain ⟨g, rfl⟩ : ∃ g, f = g + 1 := ⟨f - 1, by omega⟩
    exact hB g (by omega)
  -- assemble the outer container
  have hspanAlen : ((be32e KEY_HEAD ++ (be32e (sizeSum hs) ++ (serBytes hs ++
      (be32e KEY_BODY ++ (be32e (sizeSum bs) ++ serBytes bs)))))).length =
      sizeSum hs + 8 + sizeSum bs + 8 := by
    simp only [List.length_append, be32e_length, hSHlen, hSBlen]
    omega
  have hchildA : parseLoop (8 + ((sizeSum hs + 8 + sizeSum bs + 8) + 8))
      ((be32e KEY_HEAD ++ (be32e (sizeSum hs) ++ (serBytes hs ++
        (be32e KEY_BODY ++ (be32e (sizeSum bs) ++ serBytes bs))))) ++
       (be32e KEY_END ++ (be32e 0 ++ (([] : List Nat) ++ ([] : List Nat)))))
      (sizeSum hs + 8 + sizeSum bs + 8) =
      .ok (⟨KEY_HEAD, sizeSum hs, serBytes hs⟩ :: hs ++
        (⟨KEY_BODY, sizeSum bs, serBytes bs⟩ :: bs ++ [])) := by
    rw [show 8 + ((sizeSum hs + 8 + sizeSum bs + 8) + 8) =
      (7 + ((sizeSum hs + 8 + sizeSum bs + 8) + 8)) + 1 from by omega]
    exact hH _ (by omega) (by omega)
  have hcontA : parseLoop (8 + ((sizeSum hs + 8 + sizeSum bs + 8) + 8))
      (be32e KEY_END ++ (be32e 0 ++ (([] : List Nat) ++ ([] : List Nat)))) 8 =
      .ok [⟨KEY_END, 0, []⟩] := by
    rw [show 8 + ((sizeSum hs + 8 + sizeSum bs + 8) + 8) =
      (7 + ((sizeSum hs + 8 + sizeSum bs + 8) + 8)) + 1 from by omega]
    exact hE _
  have hblen : (be32e KEY_AQLV ++ (be32e (sizeSum hs + 8 + sizeSum bs + 8) ++
      ((be32e KEY_HEAD ++ (be32e (sizeSum hs) ++ (serBytes hs ++
        (be32e KEY_BODY ++ (be32e (sizeSum bs) ++ serBytes bs))))) ++
       (be32e KEY_END ++ (be32e 0 ++
         (([] : List Nat) ++ ([] : List Nat))))))).length =
      8 + ((sizeSum hs + 8 + sizeSum bs + 8) + 8) := by
    simp only [List.length_append, be32e_length, hSHlen, hSBlen, List.length_nil]
    omega
  rw [hser]
  unfold parseFile
  rw [hblen,
    parseLoop_super_step (8 + ((sizeSum hs + 8 + sizeSum bs + 8) + 8))
      KEY_AQLV (sizeSum hs + 8 + sizeSum bs + 8) 8
      (be32e KEY_HEAD ++ (be32e (sizeSum hs) ++ (serBytes hs ++
        (be32e KEY_BODY ++ (be32e (sizeSum bs) ++ serBytes bs)))))
      (be32e KEY_END ++ (be32e 0 ++ (([] : List Nat) ++ ([] : List Nat))))
      (⟨KEY_HEAD, sizeSum hs, serBytes hs⟩ :: hs ++
        (⟨KEY_BODY, sizeSum bs, serBytes bs⟩ :: bs ++ []))
      [⟨KEY_END, 0, []⟩]
      (by decide) (by omega) (by decide) hspanAlen hchildA hcontA,
    mapOk_ok]
  have hsupA : superkey KEY_AQLV = true := by decide
  have hsupH : superkey KEY_HEAD = true := by decide
  have hsupB : superkey KEY_BODY = true := by decide
  have hsupE : superkey KEY_END = true := by decide
  simp [eraseSuper_append, eraseSuper_cons, eraseSuper_nil,
    eraseSuper_leaves hs hwfh, eraseSuper_leaves bs hwfb,
    hsupA, hsupH, hsupB, hsupE, canonSeq]

/-- Closed instance of the round trip: a canonical file holding one gtag
header block and one two-sample alvl body block serializes without error
and parses back to the same sequence. -/
theorem serialize_parse_roundtrip_witness :
    (∀ n ∈ ([⟨KEY_gtag, 4, [1, 2, 3, 4]⟩] : List Node) ++
        [⟨KEY_alvl, 8, [0, 1, 0, 2, 0, 3, 0, 4]⟩], WFLeaf n) ∧
    sizeSum [⟨KEY_gtag, 4, [1, 2, 3, 4]⟩] +
      sizeSum [⟨KEY_alvl, 8, [0, 1, 0, 2, 0, 3, 0, 4]⟩] + 16 < 2 ^ 32 ∧
    ((tsWrite (canonSeq [⟨KEY_gtag, 4, [1, 2, 3, 4]⟩]
        [⟨KEY_alvl, 8, [0, 1, 0, 2, 0, 3, 0, 4]⟩])).2.2 = false ∧
     (parseFile (tsWrite (canonSeq [⟨KEY_gtag, 4, [1, 2, 3, 4]⟩]
        [⟨KEY_alvl, 8, [0, 1, 0, 2, 0, 3, 0, 4]⟩])).1).mapOk eraseSuper =
       .ok (canonSeq [⟨KEY_gtag, 4, [1, 2, 3, 4]⟩]
        [⟨KEY_alvl, 8, [0, 1, 0, 2, 0, 3, 0, 4]⟩])) :=
  ⟨by decide, by decide, serialize_parse_roundtrip _ _ (by decide) (by decide)⟩

set_option maxRecDepth 8000 in
/-- Counterexample to C1 as stated: a sequence holding one signature block
round-trips to DIFFERENT payload bytes.  `gen_block_sign` writes the payload
raw (its `endian_fixup` calls are commented out) while the decoder's
`fixup_data_sign` byte-swaps the four leading uint32 fields, so the version
field 1 comes back byte-reversed. -/
theorem serialize_parse_not_roundtrip_sign :
    parseFile (tsWrite [⟨KEY_sign, 208, [0, 0, 0, 1] ++ List.replicate 204 0⟩]).1 =
      .ok [⟨KEY_sign, 208, [1, 0, 0, 0] ++ List.replicate 204 0⟩] ∧
    ([1, 0, 0, 0] ++ List.replicate 204 0 : List Nat) ≠
      [0, 0, 0, 1] ++ List.replicate 204 0 := by
  decide

/-! # Claim C2 — clamp safety

When a block's declared length exceeds the remaining range, `parse_block`
clamps it to the remaining byte count (warning only), keeps the block, and
the loop terminates within the range — PROVIDED the per-type `fixup` still
accepts the clamped payload.  The claim as stated also asserts decoding
always "proceeds to completion"; that fails when the clamp leaves fewer
bytes than the block type's fixed minimum: the fixup reports the truncation
and the whole parse errors out (no sequence is returned at all). -/

/-- C2 (amended): for a buffer holding one non-container block whose
declared length exceeds the bytes present, the decoder clamps the length to
the remaining byte count, never reads past the buffer (no out-of-bounds
outcome), and — when the block's fixup accepts the clamped payload —
completes, returning the truncated block (clamped length, fixed-up
remaining bytes) rather than dropping it. -/
theorem parse_clamp_truncates (key size0 : Nat) (tail fixed : List Nat)
    (hk : key < 2 ^ 32) (hs0 : size0 < 2 ^ 32)
    (hgt : tail.length < size0)
    (hsup : superkey key = false)
    (hfix : fixupData key tail.length tail = some fixed) :
    parseFile (be32e key ++ (be32e size0 ++ tail)) = .ok [⟨key, tail.length, fixed⟩] := by
  have hlen : (be32e key ++ (be32e size0 ++ tail)).length = 8 + tail.length := by
    simp [be32e]
    omega
  have htake4 : (be32e key ++ (be32e size0 ++ tail)).take 4 = be32e key :=
    List.take_left' (be32e_length key)
  have hdrop4 : (be32e key ++ (be32e size0 ++ tail)).drop 4 = be32e size0 ++ tail :=
    List.drop_left' (be32e_length key)
  have hdrop8 : (be32e key ++ (be32e size0 ++ tail)).drop 8 = tail := by
    rw [show (8 : Nat) = 4 + 4 from rfl, ← List.drop_drop, hdrop4,
      List.drop_left' (be32e_length size0)]
  unfold parseFile
  rw [hlen]
  rw [parseLoop_step _ _ _ (by omega)]
  rw [if_neg (show ¬ (be32e key ++ (be32e size0 ++ tail)).length < 8 by rw [hlen]; omega)]
  simp only [htake4, hdrop4, hdrop8, List.take_left' (be32e_length size0),
    be32_be32e key hk, be32_be32e size0 hs0]
  rw [if_pos (by omega : 8 ≤ 8 + tail.length)]
  rw [show 8 + tail.length - 8 = tail.length from by omega]
  rw [if_pos hgt]
  rw [if_neg (show ¬ tail.length > (be32e key ++ (be32e size0 ++ tail)).length - 8 by
    rw [hlen]; omega)]
  rw [hsup]
  rw [if_neg (by simp)]
  rw [List.take_length, hfix]
  rw [show tail.length - tail.length = 0 from by omega, parseLoop_zero]
  rfl

/-- Witness for C2 (amended): a gtag block declaring 100 payload bytes with
only 6 present is clamped to 6 and kept. -/
theorem parse_clamp_truncates_witness :
    parseFile (be32e KEY_gtag ++ (be32e 100 ++ [1, 2, 3, 4, 5, 6])) =
      .ok [⟨KEY_gtag, 6, [4, 3, 2, 1, 5, 6]⟩] :=
  parse_clamp_truncates KEY_gtag 100 [1, 2, 3, 4, 5, 6] [4, 3, 2, 1, 5, 6]
    (by decide) (by decide) (by decide) (by decide) (by decide)

/-- Counterexample to C2 as stated: a sign block declaring 208 payload
bytes with only 10 present is clamped to 10, but 10 is below the sign
block's 208-byte minimum (`sizeof(struct block_sign)`), so `fixup_data_sign`
fails and the whole decode returns an error — decoding does NOT proceed to
completion and the truncated block is not part of any returned sequence. -/
theorem parse_clamped_sign_errors :
    parseFile (be32e KEY_sign ++ (be32e 208 ++ [1, 2, 3, 4, 5, 6, 7, 8, 9, 10])) =
      .err := by
  decide

/-! # Claim C10 — serialization mutates the sequence in place

Each `gen_block_*` calls `endian_fixup` on `node->key` and `node->size` (and
on each payload scalar field) right before writing it, so on a little-endian
host a successful `ts_write` leaves every node byte-swapped in memory — with
one exception the claim misses: `gen_block_sign`'s four payload fixup calls
are commented out, so a sign block's payload scalar fields are NOT swapped.
A second `ts_write` over the mutated list emits different bytes — in fact no
bytes at all, because the byte-swapped keys no longer match any dictionary
entry and serialization aborts at the first node. -/

theorem tsWrite_ok_mutates (l : List Node) (hok : (tsWrite l).2.2 = false) :
    (tsWrite l).2.1 = l.map mutateNode := by
  induction l with
  | nil => rfl
  | cons n rest ih =>
    cases hf : findBlockKey n.key with
    | false =>
      rw [tsWrite_cons_not_found n rest hf] at hok
      simp at hok
    | true =>
      rw [tsWrite_cons_found n rest hf] at hok ⊢
      simp only [List.map_cons, genBlock]
      simp only at hok
      rw [ih hok]

theorem findBlockKey_bswap32 (k : Nat) (h : findBlockKey k = true) :
    findBlockKey (bswap32 k) = false := by
  have hk : k ∈ dictKeys := by
    unfold findBlockKey at h
    simp only [Bool.and_eq_true, decide_eq_true_eq] at h
    exact h.2
  fin_cases hk <;> decide

/-- C10 (amended): on a little-endian host a successful serialization
byte-swaps every node's key and size values in place and byte-reverses the
payload scalar fields of every block type EXCEPT the signature block (whose
payload swaps ts.c comments out); the sequence in memory after `ts_write` is
`map mutateNode` of the original, and serializing it a second time produces
different output bytes — none at all, since the swapped keys are no longer
found in the dictionary and `ts_write` aborts at the first node. -/
theorem tsWrite_mutates_in_place (l : List Node) (hne : l ≠ [])
    (hok : (tsWrite l).2.2 = false) :
    (tsWrite l).2.1 = l.map mutateNode ∧
    (tsWrite ((tsWrite l).2.1)).1 ≠ (tsWrite l).1 := by
  obtain ⟨n, rest, rfl⟩ : ∃ n rest, l = n :: rest := by
    cases l with
    | nil => exact absurd rfl hne
    | cons n rest => exact ⟨n, rest, rfl⟩
  have hmut := tsWrite_ok_mutates _ hok
  refine ⟨hmut, ?_⟩
  cases hf : findBlockKey n.key with
  | false =>
    rw [tsWrite_cons_not_found n rest hf] at hok
    simp at hok
  | true =>
    have hsec : findBlockKey (mutateNode n).key = false :=
      findBlockKey_bswap32 n.key hf
    rw [hmut, List.map_cons, tsWrite_cons_not_found _ _ hsec,
      tsWrite_cons_found n rest hf]
    simp [genBlock, be32e]

/-- Witness for C10 (amended) on a one-gtag sequence. -/
theorem tsWrite_mutates_in_place_witness :
    (tsWrite [⟨KEY_gtag, 4, [1, 2, 3, 4]⟩]).2.1 =
      [⟨KEY_gtag, 4, [1, 2, 3, 4]⟩].map mutateNode ∧
    (tsWrite ((tsWrite [⟨KEY_gtag, 4, [1, 2, 3, 4]⟩]).2.1)).1 ≠
      (tsWrite [⟨KEY_gtag, 4, [1, 2, 3, 4]⟩]).1 :=
  tsWrite_mutates_in_place [⟨KEY_gtag, 4, [1, 2, 3, 4]⟩] (by decide) (by decide)

set_option maxRecDepth 4000 in
/-- Counterexample to C10 as stated: serializing a signature block leaves
its payload bytes COMPLETELY UNCHANGED in memory (only key and size are
swapped) although the claim says each node's payload scalar fields are
byte-swapped in place — the swap of the version field would have changed
the payload. -/
theorem tsWrite_sign_payload_not_swapped :
    ((tsWrite [⟨KEY_sign, 208, [0, 0, 0, 1] ++ List.replicate 204 0⟩]).2.1.map Node.data) =
      [[0, 0, 0, 1] ++ List.replicate 204 0] ∧
    swapChunks (fieldWidths KEY_sign) ([0, 0, 0, 1] ++ List.replicate 204 0) ≠
      [0, 0, 0, 1] ++ List.replicate 204 0 := by
  decide

/-! # Claim C6 — endian normalizer contract

The first half of the claim holds: for widths 2, 4 and 8 `endian_fixup`
reverses the first `width` bytes in place exactly when the host is
little-endian and leaves the buffer alone otherwise.  The second half is
refuted: `swapcopy`'s `switch` has no `default` arm and ts.c contains no
assertion, so an unsupported width is a SILENT NO-OP, not an assertion
failure. -/

/-- C6 (amended): for width ∈ {2,4,8}, `endian_fixup` reverses the first
`width` bytes exactly on a little-endian host and is a no-op on a big-endian
host; for any other width it silently leaves the buffer unchanged on either
host (there is no assertion). -/
theorem endian_fixup_contract (bs : List Nat) (w : Nat) :
    ((w = 2 ∨ w = 4 ∨ w = 8) →
      endian_fixup true bs w = (bs.take w).reverse ++ bs.drop w ∧
      endian_fixup false bs w = bs) ∧
    (¬(w = 2 ∨ w = 4 ∨ w = 8) → ∀ le, endian_fixup le bs w = bs) := by
  constructor
  · intro h
    exact ⟨by simp [endian_fixup, swapcopy, if_pos h], rfl⟩
  · intro h le
    cases le <;> simp [endian_fixup, swapcopy, if_neg h]

/-- Witness for C6 at concrete inputs: width 4 on a little-endian host
reverses, width 3 is left unchanged. -/
theorem endian_fixup_contract_witness :
    (endian_fixup true [1, 2, 3, 4, 5] 4 = ([1, 2, 3, 4, 5].take 4).reverse ++ [1, 2, 3, 4, 5].drop 4 ∧
      endian_fixup false [1, 2, 3, 4, 5] 4 = [1, 2, 3, 4, 5]) ∧
    endian_fixup true [1, 2, 3] 3 = [1, 2, 3] :=
  ⟨(endian_fixup_contract [1, 2, 3, 4, 5] 4).1 (by decide),
   (endian_fixup_contract [1, 2, 3] 3).2 (by decide) true⟩

/-- Counterexample to C6 as stated: calling the normalizer with the
unsupported width 3 on a little-endian host is a silent no-op — the buffer
comes back unchanged, with no assertion or failure of any kind (the claim
says this situation is "a programming error caught by an assertion, not
... a silent no-op"). -/
theorem endian_fixup_width3_silent_noop :
    endian_fixup true [10, 20, 30] 3 = [10, 20, 30] := by decide

/-! # Claim C8 — mac-epoch timestamp conversion -/

/-- C8: building the `mcda` block from a text timestamp stores the value
plus 2,082,844,800 (the value fits: `uint32` addition does not wrap);
rendering emits the stored value minus 2,082,844,800; and a stored value of
exactly zero renders no timestamp line at all (the conversion is skipped). -/
theorem mcda_epoch_conversion (v stored : Nat)
    (hv : v + 2082844800 < 2 ^ 32) (hst : stored ≠ 0) :
    make_node_mcda_stored v = v + 2082844800 ∧
    dump_block_mcda_value (make_node_mcda_stored v) = some (v : ℤ) ∧
    dump_block_mcda_value stored = some ((stored : ℤ) - 2082844800) ∧
    dump_block_mcda_value 0 = none := by
  have h1 : make_node_mcda_stored v = v + 2082844800 := by
    unfold make_node_mcda_stored
    omega
  refine ⟨h1, ?_, ?_, rfl⟩
  · rw [h1]
    unfold dump_block_mcda_value
    have hne : ¬(v + 2082844800 = 0) := by omega
    rw [if_neg hne, Option.some.injEq]
    push_cast
    ring
  · unfold dump_block_mcda_value
    rw [if_neg hst]

/-- Witness for C8 at a concrete timestamp. -/
theorem mcda_epoch_conversion_witness :
    make_node_mcda_stored 1000000000 = 1000000000 + 2082844800 ∧
    dump_block_mcda_value (make_node_mcda_stored 1000000000) = some (1000000000 : ℤ) ∧
    dump_block_mcda_value 7 = some ((7 : ℤ) - 2082844800) ∧
    dump_block_mcda_value 0 = none :=
  mcda_epoch_conversion 1000000000 7 (by norm_num) (by norm_num)

/-! # Claim C4 — sample stanza before the scale stanza

The build path checks only the width selector (`config->bin_type`): with no
`fbin` stanza seen, the factor `switch` hits its `default:` arm and
`make_node_alvl` fails.  The scale factors are NEVER checked: with an `fbin`
stanza seen but no `scal` stanza, `read_alvl_samples` happily divides every
sample by the `memset`-zero scale factors and succeeds. -/

/-- C4 (amended): building a sample stanza fails iff the context's width
selector is unset/unrecognized; when the selector is valid the build
succeeds even if the scale factors are still at their all-zero defaults —
a missing `scal` stanza is not detected. -/
theorem read_alvl_samples_context (samples : List (ℚ × ℚ)) (cfg : SampleCtx) :
    (factorOf cfg.bin_type = none → read_alvl_samples samples cfg = none) ∧
    (factorOf cfg.bin_type ≠ none → (read_alvl_samples samples cfg).isSome = true) := by
  unfold read_alvl_samples
  cases h : factorOf cfg.bin_type <;> simp [h]

/-- Witness for C4 (amended): bin_type 0 (nothing seen) fails; bin_type
`fix2` with zero scale factors succeeds. -/
theorem read_alvl_samples_context_witness :
    read_alvl_samples [(1, 1)] ⟨0, 0, 0⟩ = none ∧
    (read_alvl_samples [(1, 1)] ⟨BINTYPE_FIX2, 0, 0⟩).isSome = true :=
  ⟨(read_alvl_samples_context [(1, 1)] ⟨0, 0, 0⟩).1 (by decide),
   (read_alvl_samples_context [(1, 1)] ⟨BINTYPE_FIX2, 0, 0⟩).2 (by decide)⟩

/-- Counterexample to C4 as stated: with the width selector populated
(`fix2`) but the scale factors still at their zero defaults (no `scal`
stanza seen), building a sample stanza SUCCEEDS — it does not fail with
`MissingContext`; the conversion silently runs with scale factor zero. -/
theorem read_alvl_samples_zero_scale_succeeds :
    (read_alvl_samples [(1, 1), (2, -3)] ⟨BINTYPE_FIX2, 0, 0⟩).isSome = true := by
  decide

/-! # Claim C5 — error propagation out of size reconciliation

`fixup_sizes` does detect the missing containers (it returns 1), but its
only caller `tsgen` DISCARDS the return value (line 386 of ts.c:
`fixup_sizes(&root) ;`) and proceeds straight to `ts_write`, so the
text-to-binary pipeline does not halt and full binary output is emitted.
This contradicts the spec's propagation policy; the code computing and
returning the error it then ignores marks this as a slip in the code. -/

/-- C5 (code bug): on a built sequence with no container blocks at all,
size reconciliation fails — yet `tsgen` goes on to serialize and emits the
complete binary image of the sequence with a success status. -/
theorem tsgen_ignores_fixup_sizes_error :
    (fixup_sizes [⟨KEY_gtag, 4, [1, 2, 3, 4]⟩]).2 = true ∧
    (tsgenFinish [⟨KEY_gtag, 4, [1, 2, 3, 4]⟩]).1 =
      [103, 116, 97, 103, 0, 0, 0, 4, 4, 3, 2, 1] ∧
    (tsgenFinish [⟨KEY_gtag, 4, [1, 2, 3, 4]⟩]).2.2 = false := by
  decide

/-! # Claim C7 — sample scaling round trip

Encoding divides by the scale factor, multiplies by the width's full-scale
value and rounds to nearest; decoding divides by full scale and multiplies
by the scale factor.  Over exact arithmetic the round trip is within half a
quantization step — PROVIDED the rounded integer fits in the `int16_t`
sample field.  The claim as stated quantifies over every physical value and
so is false: a value whose magnitude exceeds the scale factor overflows the
16-bit store (C int→int16_t wrap) and comes back nowhere near the original. -/

/-- C7 (amended): for every physical value, valid width selector and nonzero
scale factor such that the rounded fixed-point integer fits in the 16-bit
sample field (|round((v/s)*f)| ≤ 32767), decoding the encoded sample
reproduces the value within one quantization step |s|/f (for the 16-bit
width, 1/32767 of full scale).  C `double` arithmetic is modelled by exact
rational arithmetic. -/
theorem sample_scaling_roundtrip (v s : ℚ) (w : Nat) (f : ℚ)
    (hw : factorOf w = some f) (hs : s ≠ 0)
    (hfit : |roundAway (v / s * f)| ≤ 32767) :
    |decodeSample (encodeSample v s f) s f - v| ≤ |s| / f := by
  have hf : f = 1 ∨ f = 32767 ∨ f = 8388607 ∨ f = 2147483647 := by
    unfold factorOf at hw
    split_ifs at hw <;> simp_all
  have hfpos : 0 < f := by
    rcases hf with h | h | h | h <;> rw [h] <;> norm_num
  set x := v / s * f with hx
  have henc : encodeSample v s f = roundAway x := by
    unfold encodeSample
    rw [← hx, toInt16_eq_self _ hfit]
  have hxv : x / f * s = v := by
    rw [hx]
    field_simp
    ring
  have key : decodeSample (roundAway x) s f - v = ((roundAway x : ℚ) - x) * (s / f) := by
    unfold decodeSample
    rw [← hxv]
    field_simp
    ring
  rw [henc, key, abs_mul]
  have hb := roundAway_abs_sub_le x
  have hq : |s / f| = |s| / f := by
    rw [abs_div, abs_of_pos hfpos]
  rw [hq]
  have hnn : 0 ≤ |s| / f := div_nonneg (abs_nonneg s) hfpos.le
  calc |(roundAway x : ℚ) - x| * (|s| / f) ≤ (1 / 2) * (|s| / f) := by
        exact mul_le_mul_of_nonneg_right hb hnn
    _ ≤ 1 * (|s| / f) := by
        apply mul_le_mul_of_nonneg_right _ hnn
        norm_num
    _ = |s| / f := one_mul _

/-- Witness for C7 (amended): value 1, scale 1, 16-bit width. -/
theorem sample_scaling_roundtrip_witness :
    |decodeSample (encodeSample 1 1 32767) 1 32767 - 1| ≤ |(1 : ℚ)| / 32767 :=
  sample_scaling_roundtrip 1 1 BINTYPE_FIX2 32767 (by decide) (by norm_num)
    (by rw [show ((1 : ℚ) / 1 * 32767) = ((32767 : ℤ) : ℚ) by norm_num, roundAway_intCast]
        decide)

/-- Counterexample to C7 as stated: physical value 2 at scale factor 1 with
the 16-bit width encodes to round(2*32767) = 65534, which wraps in the
`int16_t` sample field to -2; decoding gives -2/32767, an error of about 2,
far above 1/32767 of full scale. -/
theorem sample_scaling_overflow :
    ¬ |decodeSample (encodeSample 2 1 32767) 1 32767 - 2| ≤ |(1 : ℚ)| / 32767 := by
  have h1 : encodeSample 2 1 32767 = -2 := by
    unfold encodeSample
    rw [show ((2 : ℚ) / 1 * 32767) = ((65534 : ℤ) : ℚ) by norm_num, roundAway_intCast]
    decide
  rw [h1]
  unfold decodeSample
  rw [not_le]
  rw [show ((-2 : ℤ) : ℚ) / 32767 * 1 - 2 = -(65536 / 32767) by push_cast; ring]
  rw [abs_neg, abs_of_pos (show (0 : ℚ) < 65536 / 32767 by norm_num)]
  norm_num

/-! # Claim C9 — header-only render

`dump_list` checks, before dumping each block, whether header-only mode is
on and the block about to be dumped is the `BODY` container, and returns
success on the spot — so the header-only output is exactly the full render
of the longest prefix of the sequence that precedes the first `BODY` block
("truncated at the marker": the marker's own lines and everything after are
omitted, everything before is unchanged, including the threaded context and
any earlier error). -/

/-- C9: header-only rendering equals full rendering of the sequence
truncated at the first body-open marker — line-for-line identical output
and identical error status. -/
theorem dump_list_header_only (cfg : DumpCtx) (l : List Node) :
    dump_list true cfg l =
      dump_list false cfg (l.takeWhile fun n => n.key != KEY_BODY) := by
  induction l generalizing cfg with
  | nil => rfl
  | cons n rest ih =>
    by_cases hb : n.key = KEY_BODY
    · rw [List.takeWhile_cons_of_neg (by simp [hb])]
      have hf : findBlockKey n.key = true := by rw [hb]; decide
      simp only [dump_list, hf, if_true]
      rw [if_pos ⟨trivial, hb⟩]
    · rw [List.takeWhile_cons_of_pos (by simp [hb])]
      cases hf : findBlockKey n.key with
      | false => simp only [dump_list, hf]; rfl
      | true =>
        simp only [dump_list, hf, if_true]
        rw [if_neg (by simp [hb]), if_neg (by simp [hb])]
        cases hd : dumpBlock n cfg with
        | none => rfl
        | some pr =>
          obtain ⟨lines, cfg'⟩ := pr
          simp only [ih cfg']

/-! # Claim C3 — size reconciliation

Scan lemmas for `calculate_head_size` / `calculate_body_size` over a
canonically ordered sequence, then the reconciliation theorem.  The claim
as stated (for EVERY sequence containing the three containers) fails:
`fixup_sizes` treats a zero region total as `MissingContainer`-style
failure and patches nothing, so a sequence whose header region is empty is
left with its old container sizes. -/

theorem headSizeLoop_lt (l : List Node) (b : Bool) : headSizeLoop l b < 2 ^ 32 := by
  cases l with
  | nil => simp [headSizeLoop]
  | cons n rest => exact Nat.mod_lt _ (by norm_num)

theorem bodySizeLoop_lt (l : List Node) (b : Bool) : bodySizeLoop l b < 2 ^ 32 := by
  cases l with
  | nil => simp [bodySizeLoop]
  | cons n rest => exact Nat.mod_lt _ (by norm_num)

theorem headSizeLoop_append_false (l1 l2 : List Node)
    (h : ∀ n ∈ l1, n.key ≠ KEY_HEAD) :
    headSizeLoop (l1 ++ l2) false = headSizeLoop l2 false := by
  induction l1 with
  | nil => rfl
  | cons n rest ih =>
    obtain hn := h n (List.mem_cons_self n rest)
    have hrest : ∀ m ∈ rest, m.key ≠ KEY_HEAD := fun m hm => h m (List.mem_cons_of_mem n hm)
    simp only [List.cons_append, headSizeLoop, if_neg hn, ite_self, List.append_eq]
    rw [ih hrest, if_neg (by simp)]
    have hlt := headSizeLoop_lt l2 false
    omega

theorem headSizeLoop_append_true (l1 l2 : List Node)
    (h : ∀ n ∈ l1, noContainer n) :
    headSizeLoop (l1 ++ l2) true = (sizeSum l1 + headSizeLoop l2 true) % 2 ^ 32 := by
  induction l1 with
  | nil =>
    simp only [List.nil_append, sizeSum, List.map_nil, List.sum_nil, Nat.zero_add]
    exact (Nat.mod_eq_of_lt (headSizeLoop_lt l2 true)).symm
  | cons n rest ih =>
    obtain ⟨h1, h2, h3, h4⟩ := h n (List.mem_cons_self n rest)
    have hrest : ∀ m ∈ rest, noContainer m := fun m hm => h m (List.mem_cons_of_mem n hm)
    simp only [List.cons_append, headSizeLoop, if_neg h4, if_neg h3, if_neg h2,
      List.append_eq]
    rw [ih hrest]
    have hss : sizeSum (n :: rest) = n.size + 8 + sizeSum rest := by
      simp [sizeSum]
    rw [hss, if_pos trivial]
    omega

theorem bodySizeLoop_append_false (l1 l2 : List Node)
    (h : ∀ n ∈ l1, n.key ≠ KEY_BODY) :
    bodySizeLoop (l1 ++ l2) false = bodySizeLoop l2 false := by
  induction l1 with
  | nil => rfl
  | cons n rest ih =>
    obtain hn := h n (List.mem_cons_self n rest)
    have hrest : ∀ m ∈ rest, m.key ≠ KEY_BODY := fun m hm => h m (List.mem_cons_of_mem n hm)
    simp only [List.cons_append, bodySizeLoop, if_neg hn, ite_self, List.append_eq]
    rw [ih hrest, if_neg (by simp)]
    have hlt := bodySizeLoop_lt l2 false
    omega

theorem bodySizeLoop_append_true (l1 l2 : List Node)
    (h : ∀ n ∈ l1, noContainer n) :
    bodySizeLoop (l1 ++ l2) true = (sizeSum l1 + bodySizeLoop l2 true) % 2 ^ 32 := by
  induction l1 with
  | nil =>
    simp only [List.nil_append, sizeSum, List.map_nil, List.sum_nil, Nat.zero_add]
    exact (Nat.mod_eq_of_lt (bodySizeLoop_lt l2 true)).symm
  | cons n rest ih =>
    obtain ⟨h1, h2, h3, h4⟩ := h n (List.mem_cons_self n rest)
    have hrest : ∀ m ∈ rest, noContainer m := fun m hm => h m (List.mem_cons_of_mem n hm)
    simp only [List.cons_append, bodySizeLoop, if_neg h4, if_neg h3, List.append_eq]
    rw [ih hrest]
    have hss : sizeSum (n :: rest) = n.size + 8 + sizeSum rest := by
      simp [sizeSum]
    rw [hss, if_pos trivial]
    omega

theorem headSizeLoop_false_of (l : List Node) (h : ∀ n ∈ l, n.key ≠ KEY_HEAD) :
    headSizeLoop l false = 0 := by
  have := headSizeLoop_append_false l [] h
  simpa using this

theorem bodySizeLoop_false_of (l : List Node) (h : ∀ n ∈ l, n.key ≠ KEY_BODY) :
    bodySizeLoop l false = 0 := by
  have := bodySizeLoop_append_false l [] h
  simpa using this

theorem set_block_size_append (l1 l2 : List Node) (k s : Nat)
    (h : ∀ n ∈ l1, n.key ≠ k) :
    set_block_size (l1 ++ l2) k s = (set_block_size l2 k s).map (l1 ++ ·) := by
  induction l1 with
  | nil =>
    simp only [List.nil_append]
    cases set_block_size l2 k s <;> rfl
  | cons n rest ih =>
    obtain hn := h n (List.mem_cons_self n rest)
    have hrest : ∀ m ∈ rest, m.key ≠ k := fun m hm => h m (List.mem_cons_of_mem n hm)
    simp only [List.cons_append, set_block_size, if_neg hn, List.append_eq, ih hrest]
    cases set_block_size l2 k s <;> rfl

theorem sizeSum_eq_payloadSum (l : List Node) (h : ∀ n ∈ l, n.size = n.data.length) :
    sizeSum l = payloadSum l := by
  unfold sizeSum payloadSum
  induction l with
  | nil => rfl
  | cons n rest ih =>
    obtain hn := h n (List.mem_cons_self n rest)
    have hrest : ∀ m ∈ rest, m.size = m.data.length :=
      fun m hm => h m (List.mem_cons_of_mem n hm)
    simp only [List.map_cons, List.sum_cons, hn, ih hrest]

theorem payloadSum_pos (l : List Node) (h : l ≠ []) : 0 < payloadSum l := by
  cases l with
  | nil => exact absurd rfl h
  | cons n rest =>
    have : payloadSum (n :: rest) = n.data.length + 8 + payloadSum rest := by
      simp [payloadSum]
    omega

theorem set_block_size_cons_eq (n : Node) (l : List Node) (k s : Nat) (h : n.key = k) :
    set_block_size (n :: l) k s = some ({ n with size := s } :: l) := by
  simp [set_block_size, if_pos h]

theorem set_block_size_cons_ne (n : Node) (l : List Node) (k s : Nat) (h : n.key ≠ k) :
    set_block_size (n :: l) k s = (set_block_size l k s).map (n :: ·) := by
  simp [set_block_size, if_neg h]

/-- `fixup_sizes` unfolded through its success path, stated over opaque
lists so the match reductions stay small. -/
theorem fixup_sizes_eq_of (l l1 l2 l3 : List Node) (hSz bSz : Nat)
    (hh : calculate_head_size l = hSz) (hb : calculate_body_size l = bSz)
    (hne1 : hSz ≠ 0) (hne2 : bSz ≠ 0)
    (p1 : set_block_size l KEY_AQLV ((hSz + 8 + bSz + 8) % 2 ^ 32) = some l1)
    (p2 : set_block_size l1 KEY_HEAD hSz = some l2)
    (p3 : set_block_size l2 KEY_BODY bSz = some l3) :
    fixup_sizes l = (l3, false) := by
  unfold fixup_sizes
  rw [hh, hb, if_neg hne1, if_neg hne2]
  simp only [p1, p2, p3]

/-- C3 (amended): for a sequence in canonical bracket order — the outer
container, then the header container, a nonempty header region of
non-container blocks, the body container, a nonempty body region of
non-container blocks and the end marker — whose declared block sizes match
their payload lengths and whose totals fit in the 32-bit accumulator,
reconciliation patches the header container's length to the header-region
total Σ(payload length + 8), the body container's length to the body-region
total, and the outer container's length to header_total + 8 + body_total
+ 8, leaving every other block untouched and reporting success. -/
theorem fixup_sizes_reconciles (a0 h0 b0 e0 : Nat) (da dh db de : List Nat)
    (hs bs : List Node)
    (hhs : ∀ n ∈ hs, noContainer n) (hbs : ∀ n ∈ bs, noContainer n)
    (hsz : ∀ n ∈ hs ++ bs, n.size = n.data.length)
    (hhne : hs ≠ []) (hbne : bs ≠ [])
    (hbound : payloadSum hs + payloadSum bs + 16 < 2 ^ 32) :
    fixup_sizes (⟨KEY_AQLV, a0, da⟩ :: (⟨KEY_HEAD, h0, dh⟩ :: (hs ++
        (⟨KEY_BODY, b0, db⟩ :: (bs ++ [⟨KEY_END, e0, de⟩]))))) =
      (⟨KEY_AQLV, payloadSum hs + 8 + payloadSum bs + 8, da⟩ ::
        (⟨KEY_HEAD, payloadSum hs, dh⟩ :: (hs ++
        (⟨KEY_BODY, payloadSum bs, db⟩ :: (bs ++ [⟨KEY_END, e0, de⟩])))), false) := by
  have hszh : ∀ n ∈ hs, n.size = n.data.length :=
    fun n hn => hsz n (List.mem_append_left _ hn)
  have hszb : ∀ n ∈ bs, n.size = n.data.length :=
    fun n hn => hsz n (List.mem_append_right _ hn)
  have hsumh : sizeSum hs = payloadSum hs := sizeSum_eq_payloadSum hs hszh
  have hsumb : sizeSum bs = payloadSum bs := sizeSum_eq_payloadSum bs hszb
  have hposh : 0 < payloadSum hs := payloadSum_pos hs hhne
  have hposb : 0 < payloadSum bs := payloadSum_pos bs hbne
  -- the head-region scan
  have e1 : calculate_head_size (⟨KEY_AQLV, a0, da⟩ :: (⟨KEY_HEAD, h0, dh⟩ :: (hs ++
      (⟨KEY_BODY, b0, db⟩ :: (bs ++ [⟨KEY_END, e0, de⟩]))))) =
      (0 + headSizeLoop (⟨KEY_HEAD, h0, dh⟩ :: (hs ++
      (⟨KEY_BODY, b0, db⟩ :: (bs ++ [⟨KEY_END, e0, de⟩])))) false) % 2 ^ 32 := by
    unfold calculate_head_size
    simp only [headSizeLoop]
    norm_num [KEY_AQLV, KEY_HEAD, KEY_BODY, KEY_END]
  have e2 : headSizeLoop (⟨KEY_HEAD, h0, dh⟩ :: (hs ++
      (⟨KEY_BODY, b0, db⟩ :: (bs ++ [⟨KEY_END, e0, de⟩])))) false =
      (0 + headSizeLoop (hs ++ (⟨KEY_BODY, b0, db⟩ :: (bs ++ [⟨KEY_END, e0, de⟩]))) true) %
        2 ^ 32 := by
    simp only [headSizeLoop]
    norm_num [KEY_AQLV, KEY_HEAD, KEY_BODY, KEY_END]
  have e3 := headSizeLoop_append_true hs
    (⟨KEY_BODY, b0, db⟩ :: (bs ++ [⟨KEY_END, e0, de⟩])) hhs
  have e4 : headSizeLoop (⟨KEY_BODY, b0, db⟩ :: (bs ++ [⟨KEY_END, e0, de⟩])) true =
      (0 + headSizeLoop (bs ++ [⟨KEY_END, e0, de⟩]) false) % 2 ^ 32 := by
    simp only [headSizeLoop]
    norm_num [KEY_AQLV, KEY_HEAD, KEY_BODY, KEY_END]
  have e5 : headSizeLoop (bs ++ [⟨KEY_END, e0, de⟩]) false = 0 := by
    apply headSizeLoop_false_of
    intro n hn
    rcases List.mem_append.mp hn with h | h
    · exact (hbs n h).2.1
    · rw [List.mem_singleton.mp h]
      exact (show KEY_END ≠ KEY_HEAD by decide)
  have hhead : calculate_head_size (⟨KEY_AQLV, a0, da⟩ :: (⟨KEY_HEAD, h0, dh⟩ :: (hs ++
      (⟨KEY_BODY, b0, db⟩ :: (bs ++ [⟨KEY_END, e0, de⟩]))))) = payloadSum hs := by
    rw [e1, e2, e3, e4, e5, hsumh]
    omega
  -- the body-region scan
  have b1 : calculate_body_size (⟨KEY_AQLV, a0, da⟩ :: (⟨KEY_HEAD, h0, dh⟩ :: (hs ++
      (⟨KEY_BODY, b0, db⟩ :: (bs ++ [⟨KEY_END, e0, de⟩]))))) =
      (0 + bodySizeLoop (⟨KEY_HEAD, h0, dh⟩ :: (hs ++
      (⟨KEY_BODY, b0, db⟩ :: (bs ++ [⟨KEY_END, e0, de⟩])))) false) % 2 ^ 32 := by
    unfold calculate_body_size
    simp only [bodySizeLoop]
    norm_num [KEY_AQLV, KEY_HEAD, KEY_BODY, KEY_END]
  have b2 : bodySizeLoop (⟨KEY_HEAD, h0, dh⟩ :: (hs ++
      (⟨KEY_BODY, b0, db⟩ :: (bs ++ [⟨KEY_END, e0, de⟩])))) false =
      (0 + bodySizeLoop (hs ++ (⟨KEY_BODY, b0, db⟩ :: (bs ++ [⟨KEY_END, e0, de⟩]))) false) %
        2 ^ 32 := by
    simp only [bodySizeLoop]
    norm_num [KEY_AQLV, KEY_HEAD, KEY_BODY, KEY_END]
  have b3 : bodySizeLoop (hs ++ (⟨KEY_BODY, b0, db⟩ :: (bs ++ [⟨KEY_END, e0, de⟩]))) false =
      bodySizeLoop (⟨KEY_BODY, b0, db⟩ :: (bs ++ [⟨KEY_END, e0, de⟩])) false :=
    bodySizeLoop_append_false hs _ (fun n hn => (hhs n hn).2.2.1)
  have b4 : bodySizeLoop (⟨KEY_BODY, b0, db⟩ :: (bs ++ [⟨KEY_END, e0, de⟩])) false =
      (0 + bodySizeLoop (bs ++ [⟨KEY_END, e0, de⟩]) true) % 2 ^ 32 := by
    simp only [bodySizeLoop]
    norm_num [KEY_AQLV, KEY_HEAD, KEY_BODY, KEY_END]
  have b5 := bodySizeLoop_append_true bs [⟨KEY_END, e0, de⟩] hbs
  have b6 : bodySizeLoop [(⟨KEY_END, e0, de⟩ : Node)] true = 0 := by
    simp only [bodySizeLoop]
    norm_num [KEY_AQLV, KEY_HEAD, KEY_BODY, KEY_END]
  have hbody : calculate_body_size (⟨KEY_AQLV, a0, da⟩ :: (⟨KEY_HEAD, h0, dh⟩ :: (hs ++
      (⟨KEY_BODY, b0, db⟩ :: (bs ++ [⟨KEY_END, e0, de⟩]))))) = payloadSum bs := by
    rw [b1, b2, b3, b4, b5, b6, hsumb]
    omega
  -- the three patches
  have P1 : set_block_size (⟨KEY_AQLV, a0, da⟩ :: (⟨KEY_HEAD, h0, dh⟩ :: (hs ++
      (⟨KEY_BODY, b0, db⟩ :: (bs ++ [⟨KEY_END, e0, de⟩]))))) KEY_AQLV
      (payloadSum hs + 8 + payloadSum bs + 8) =
      some (⟨KEY_AQLV, payloadSum hs + 8 + payloadSum bs + 8, da⟩ ::
        (⟨KEY_HEAD, h0, dh⟩ :: (hs ++
        (⟨KEY_BODY, b0, db⟩ :: (bs ++ [⟨KEY_END, e0, de⟩]))))) := by
    rw [set_block_size_cons_eq _ _ _ _ rfl]
  have P2 : set_block_size (⟨KEY_AQLV, payloadSum hs + 8 + payloadSum bs + 8, da⟩ ::
      (⟨KEY_HEAD, h0, dh⟩ :: (hs ++
      (⟨KEY_BODY, b0, db⟩ :: (bs ++ [⟨KEY_END, e0, de⟩]))))) KEY_HEAD (payloadSum hs) =
      some (⟨KEY_AQLV, payloadSum hs + 8 + payloadSum bs + 8, da⟩ ::
        (⟨KEY_HEAD, payloadSum hs, dh⟩ :: (hs ++
        (⟨KEY_BODY, b0, db⟩ :: (bs ++ [⟨KEY_END, e0, de⟩]))))) := by
    rw [set_block_size_cons_ne _ _ _ _ (show KEY_AQLV ≠ KEY_HEAD by decide),
      set_block_size_cons_eq _ _ _ _ rfl]
    rfl
  have P3 : set_block_size (⟨KEY_AQLV, payloadSum hs + 8 + payloadSum bs + 8, da⟩ ::
      (⟨KEY_HEAD, payloadSum hs, dh⟩ :: (hs ++
      (⟨KEY_BODY, b0, db⟩ :: (bs ++ [⟨KEY_END, e0, de⟩]))))) KEY_BODY (payloadSum bs) =
      some (⟨KEY_AQLV, payloadSum hs + 8 + payloadSum bs + 8, da⟩ ::
        (⟨KEY_HEAD, payloadSum hs, dh⟩ :: (hs ++
        (⟨KEY_BODY, payloadSum bs, db⟩ :: (bs ++ [⟨KEY_END, e0, de⟩]))))) := by
    rw [set_block_size_cons_ne _ _ _ _ (show KEY_AQLV ≠ KEY_BODY by decide),
      set_block_size_cons_ne _ _ _ _ (show KEY_HEAD ≠ KEY_BODY by decide),
      set_block_size_append hs _ _ _ (fun n hn => (hhs n hn).2.2.1),
      set_block_size_cons_eq _ _ _ _ rfl]
    rfl
  -- assemble fixup_sizes
  have hne1 : payloadSum hs ≠ 0 := by omega
  have hne2 : payloadSum bs ≠ 0 := by omega
  have haq : (payloadSum hs + 8 + payloadSum bs + 8) % 2 ^ 32 =
      payloadSum hs + 8 + payloadSum bs + 8 := by omega
  exact fixup_sizes_eq_of _ _ _ _ _ _ hhead hbody hne1 hne2
    (by rw [haq]; exact P1) P2 P3

/-- Witness for C3 (amended) on a concrete canonical sequence: one gtag
block in the header region, one 2-sample alvl block in the body region. -/
theorem fixup_sizes_reconciles_witness :
    fixup_sizes (⟨KEY_AQLV, 0, []⟩ :: (⟨KEY_HEAD, 0, []⟩ :: ([⟨KEY_gtag, 4, [1, 2, 3, 4]⟩] ++
        (⟨KEY_BODY, 0, []⟩ :: ([⟨KEY_alvl, 8, [1, 2, 3, 4, 5, 6, 7, 8]⟩] ++
        [⟨KEY_END, 0, []⟩]))))) =
      (⟨KEY_AQLV, payloadSum [⟨KEY_gtag, 4, [1, 2, 3, 4]⟩] + 8 +
          payloadSum [⟨KEY_alvl, 8, [1, 2, 3, 4, 5, 6, 7, 8]⟩] + 8, []⟩ ::
        (⟨KEY_HEAD, payloadSum [⟨KEY_gtag, 4, [1, 2, 3, 4]⟩], []⟩ ::
        ([⟨KEY_gtag, 4, [1, 2, 3, 4]⟩] ++
        (⟨KEY_BODY, payloadSum [⟨KEY_alvl, 8, [1, 2, 3, 4, 5, 6, 7, 8]⟩], []⟩ ::
        ([⟨KEY_alvl, 8, [1, 2, 3, 4, 5, 6, 7, 8]⟩] ++ [⟨KEY_END, 0, []⟩])))), false) :=
  fixup_sizes_reconciles 0 0 0 0 [] [] [] []
    [⟨KEY_gtag, 4, [1, 2, 3, 4]⟩] [⟨KEY_alvl, 8, [1, 2, 3, 4, 5, 6, 7, 8]⟩]
    (by decide) (by decide) (by decide) (by decide) (by decide) (by decide)

/-- Counterexample to C3 as stated: the sequence AQLV-HEAD-BODY-END (all
three containers present, both regions empty, all sizes 0) has
header_total = body_total = 0, so the claim requires the outer container's
length to become 0 + 8 + 0 + 8 = 16 after reconciliation — but
`fixup_sizes` treats the zero header total as failure and patches nothing,
leaving the outer length 0. -/
theorem fixup_sizes_empty_regions :
    ¬ (((fixup_sizes [⟨KEY_AQLV, 0, []⟩, ⟨KEY_HEAD, 0, []⟩, ⟨KEY_BODY, 0, []⟩,
        ⟨KEY_END, 0, []⟩]).1.head?.map Node.size) = some (0 + 8 + 0 + 8)) := by
  decide

end TS
